import Mathlib

/-!
# lbox-go: step sequencer (`pkg/mission`), guarded state machine
(`pkg/statemachine`), barrier (`pkg/ManifoldValve.go`) and the first sequencer
(`pkg/Mission.go`)

A shallow embedding of these parts of the repository and the properties proved
about them.

Conventions of the embedding

* A Go method with a pointer receiver becomes a function from the receiver's
  state to an `Outcome`: either the method returned (`done`) or it panicked
  (`panicked`), in both cases with the state the receiver was left in.
* Callbacks supplied by the user of the library (`Dispose`, `StateIn`,
  `StateOut`, `InitData`, `CheckStateChange`, `OnValveOpen`) are recorded in a ghost field
  `log` of the receiver, in call order.  For the sequencer the log also records
  every `mu.Lock()`, `mu.Unlock()` and `go m.tick()` in program order, so that
  the position of a `Dispose` call relative to the critical section is visible.
  A callback is a logged call and nothing more: the embedding does not run user
  code, so a callback never calls back into the struct it was invoked from.
* `time.Sleep` has no effect on the state and is left out.
-/

namespace mission

/-- A value of the interface `StepDisposer`: the result of `StepName()` and the
identity of the object that implements the interface. -/
structure StepDisposer where
  StepName : String
  obj : Nat
deriving DecidableEq, Repr

/-- What a method of `Mission` does that is visible from outside the struct. -/
inductive Event where
  | lock
  | unlock
  | dispose (s : StepDisposer)
  | goTick
deriving DecidableEq, Repr

/-- The struct `Mission`.  `tags` is never written by the package (it stays
nil) and is left out; `mu` is represented by the `lock`/`unlock` events. -/
structure Mission where
  stepList : List StepDisposer
  stepNow : Option StepDisposer
  running : Bool
  stepRunning : Bool
  taskList : List String
  log : List Event
deriving DecidableEq, Repr

/-- Result of a method call: normal return or panic, with the receiver's state. -/
inductive Outcome where
  | done (m : Mission)
  | panicked (m : Mission)
deriving DecidableEq, Repr

/-- The receiver's state when the call ended. -/
def Outcome.state : Outcome → Mission
  | .done m => m
  | .panicked m => m

/-- Whether the call ended in a panic. -/
def Outcome.isPanic : Outcome → Bool
  | .done _ => false
  | .panicked _ => true

/-- Sequencing of calls: a panic stops the sequence. -/
def Outcome.bind (o : Outcome) (f : Mission → Outcome) : Outcome :=
  match o with
  | .done m => f m
  | .panicked m => .panicked m

/-- Append one event to the ghost log. -/
def Mission.emit (m : Mission) (e : Event) : Mission :=
  { m with log := m.log ++ [e] }

/-- The steps whose `Dispose` has been invoked, in invocation order. -/
def disposedOf : List Event → List StepDisposer
  | [] => []
  | .dispose s :: es => s :: disposedOf es
  | _ :: es => disposedOf es

/-- The steps whose `Dispose` has been invoked on this mission so far. -/
def Mission.disposed (m : Mission) : List StepDisposer :=
  disposedOf m.log

/-- For every `Dispose` in a trace, the step and whether `mu` was held by the
caller at that moment; `held` is the state of the mutex before the trace. -/
def lockAtDispose : List Event → Bool → List (StepDisposer × Bool)
  | [], _ => []
  | .lock :: es, _ => lockAtDispose es true
  | .unlock :: es, _ => lockAtDispose es false
  | .dispose s :: es, held => (s, held) :: lockAtDispose es held
  | .goTick :: es, held => lockAtDispose es held

/-- The events a call added to the log of the mission it was made on. -/
def newEvents (before : Mission) (o : Outcome) : List Event :=
  o.state.log.drop before.log.length

/-- The constructor `NewMission`. -/
def NewMission (stepList : List StepDisposer) : Mission :=
  { stepList := stepList, stepNow := none, running := false,
    stepRunning := false, taskList := [], log := [] }

/-- The method `Mission.Start`.  `m.stepList[0]` on an empty list panics after
`running` was set; the deferred `Unlock` runs on every exit. -/
def Start (m : Mission) : Outcome :=
  let m := m.emit .lock
  if m.running then
    .done (m.emit .unlock)
  else
    let m := { m with running := true }
    match m.stepList with
    | [] => .panicked (m.emit .unlock)
    | s :: _ =>
      let m := { m with stepNow := some s }
      let m := { m with stepRunning := true }
      let m := m.emit (.dispose s)
      let m := { m with stepRunning := false }
      let m := m.emit .goTick
      .done (m.emit .unlock)

/-- The method `Mission.GoNext`. -/
def GoNext (m : Mission) : Outcome :=
  let m := m.emit .lock
  let m := { m with taskList := m.taskList ++ ["next"] }
  .done (m.emit .unlock)

/-- The `for ... range m.stepList` loop of the `"next"` branch of `tick`, run
on the rest of the list with the current value of the local `next`.  The
result is the mission and the value of `next` after the loop; `none` is the
nil dereference of `m.stepNow.StepName()` when there is no current step. -/
def nextLoop : List StepDisposer → Bool → Mission → Option (Mission × Bool)
  | [], next, m => some (m, next)
  | iterator :: rest, next, m =>
    if next then
      let m := { m with stepNow := some iterator }
      let m := m.emit (.dispose iterator)
      some (m, false)
    else
      match m.stepNow with
      | none => none
      | some now =>
        if iterator.StepName = now.StepName then nextLoop rest true m
        else nextLoop rest false m

/-- The `for ... range m.stepList` loop of the jump branch of `tick`. -/
def jumpLoop (currentTask : String) : List StepDisposer → Mission → Mission
  | [], m => m
  | iterator :: rest, m =>
    if iterator.StepName = currentTask then
      let m := { m with stepNow := some iterator }
      m.emit (.dispose iterator)
    else jumpLoop currentTask rest m

/-- One call of the method `Mission.tick` (one polling pass).  The pass that
follows is the `goTick` event.  The nil dereference inside the `"next"` loop
happens with `mu` still locked. -/
def tick (m : Mission) : Outcome :=
  let m := m.emit .lock
  if !m.running then
    .done (m.emit .unlock)
  else if m.stepRunning then
    .panicked (m.emit .unlock)
  else
    match m.taskList with
    | [] => .done ((m.emit .unlock).emit .goTick)
    | currentTask :: rest =>
      let m := { m with taskList := rest }
      let m := { m with stepRunning := true }
      if currentTask = "next" then
        match nextLoop m.stepList false m with
        | none => .panicked m
        | some (m, next) =>
          if next then
            let m := { m with running := false }
            let m := { m with stepRunning := false }
            .done (m.emit .unlock)
          else
            let m := { m with stepRunning := false }
            .done ((m.emit .unlock).emit .goTick)
      else
        let m := jumpLoop currentTask m.stepList m
        let m := { m with stepRunning := false }
        .done ((m.emit .unlock).emit .goTick)

/-- The first loop of `Jump`: whether some queued task is not `"next"`. -/
def hasJumpTask : List String → Bool
  | [] => false
  | task :: rest => if task ≠ "next" then true else hasJumpTask rest

/-- The second loop of `Jump`: the first step with the given name makes
`stepExists` true and appends the name to the queue. -/
def jumpExists (stepName : String) : List StepDisposer → Mission → Mission × Bool
  | [], m => (m, false)
  | iterator :: rest, m =>
    if iterator.StepName = stepName then
      ({ m with taskList := m.taskList ++ [stepName] }, true)
    else jumpExists stepName rest m

/-- The method `Mission.Jump`.  The warning printed when the step does not
exist has no effect on the state. -/
def Jump (stepName : String) (m : Mission) : Outcome :=
  let m := m.emit .lock
  if hasJumpTask m.taskList then
    .panicked (m.emit .unlock)
  else
    let (m, _stepExists) := jumpExists stepName m.stepList m
    .done (m.emit .unlock)

/-- The names of the steps of a list. -/
def names (steps : List StepDisposer) : List String :=
  steps.map StepDisposer.StepName

/-- One request of a caller of the sequencer, or one pass of its polling loop. -/
inductive Call where
  | goNext
  | tick
deriving DecidableEq, Repr

/-- Perform one call. -/
def call : Call → Mission → Outcome
  | .goNext, m => GoNext m
  | .tick, m => tick m

/-- Perform a sequence of calls in order. -/
def run : List Call → Mission → Outcome
  | [], m => .done m
  | c :: cs, m => (call c m).bind (run cs)

/-- The number of polling passes of a schedule that find a queued request,
when `q` requests are queued before the schedule and only `GoNext` enqueues. -/
def passes : List Call → Nat → Nat
  | [], _ => 0
  | .goNext :: cs, q => passes cs (q + 1)
  | .tick :: cs, 0 => passes cs 0
  | .tick :: cs, q + 1 => passes cs q + 1

/-- A step whose name is the word the queue uses for an advance request. -/
def stepNext : StepDisposer := ⟨"next", 4⟩

/-- The sequencer is running on `steps`, idle between two passes, at the step
`cur` that splits the list into `pre ++ cur :: post`; `q` advance requests are
queued and `Dispose` has been invoked on `pre` and then on `cur`. -/
structure AtStep (steps : List StepDisposer) (m : Mission)
    (pre : List StepDisposer) (cur : StepDisposer) (post : List StepDisposer)
    (q : Nat) : Prop where
  split : steps = pre ++ cur :: post
  list : m.stepList = steps
  now : m.stepNow = some cur
  run : m.running = true
  idle : m.stepRunning = false
  queue : m.taskList = List.replicate q "next"
  disp : m.disposed = pre ++ [cur]

/-- The sequencer has gone through all of `steps` and stopped. -/
structure Finished (steps : List StepDisposer) (m : Mission) : Prop where
  list : m.stepList = steps
  now : m.stepNow = steps.getLast?
  stopped : m.running = false
  idle : m.stepRunning = false
  disp : m.disposed = steps

/-- The queue holds at most one request that is not an advance request. -/
def AtMostOneJump (taskList : List String) : Prop :=
  (taskList.filter (fun task => task ≠ "next")).length ≤ 1

instance (taskList : List String) : Decidable (AtMostOneJump taskList) :=
  Nat.decLe _ _

/-- Example steps, named as in the package's tests. -/
def step1 : StepDisposer := ⟨"step1", 1⟩

/-- Second example step. -/
def step2 : StepDisposer := ⟨"step2", 2⟩

/-- Third example step. -/
def step3 : StepDisposer := ⟨"step3", 3⟩

end mission

namespace statemachine

/-- A call from the state machine into user code, with the names of the states
involved (`none` for a nil state). -/
inductive Event where
  | initData
  | checkStateChange (stateNow : String) (newState : Option String)
  | stateIn (name : String)
  | stateOut (name : String)
deriving DecidableEq, Repr

/-- A non-nil value of the interface `State`.  The error returned by `StateIn`
and `StateOut` (`none` for nil) may depend on the calls made so far. -/
structure State where
  GetName : String
  StateIn : List Event → Option String
  StateOut : List Event → Option String

/-- A value of the interface `StateMachineInterface` (the guard).  The results
may depend on the calls made so far; the second argument of `CheckStateChange`
is `none` when the machine passes a nil state. -/
structure StateMachineInterface where
  InitData : List Event → Option String
  CheckStateChange : List Event → State → Option State → Bool × Option String

/-- The struct `StateMap`: a Go map from names to `State` values, which may be
nil; the first entry for a key is the one the map holds. -/
structure StateMap where
  States : List (String × Option State)

/-- The struct `StateMachine`, with the ghost log of the calls it has made.
`mu` is held for the whole of `Start` and `ChangeState` and is left out. -/
structure StateMachine where
  smi : StateMachineInterface
  stateMap : StateMap
  initing : Bool
  running : Bool
  stateNow : Option State
  stateLast : Option State
  log : List Event

/-- The errors built by `fmt.Errorf` in the package, one constructor for each
format string; `cause` is the wrapped error of the callback. -/
inductive Error where
  | alreadyStarted
  | stateNotFound (name : String)
  | initDataFailed (cause : String)
  | stateInFailed (cause : String)
  | notRunning
  | currentUndefined
  | checkFailed (cause : String)
  | notAllowed (src dst : String)
  | stateOutFailed (cause : String)
deriving DecidableEq, Repr

/-- Result of `Start` or `ChangeState`: the call returned an error value
(`none` for nil) or panicked, with the machine as it was left. -/
inductive Outcome where
  | returned (sm : StateMachine) (err : Option Error)
  | panicked (sm : StateMachine)

/-- The machine when the call ended. -/
def Outcome.machine : Outcome → StateMachine
  | .returned sm _ => sm
  | .panicked sm => sm

/-- The error value the call returned; `none` also for a panic. -/
def Outcome.err : Outcome → Option Error
  | .returned _ e => e
  | .panicked _ => none

/-- Whether the call returned a non-nil error. -/
def Outcome.failed : Outcome → Bool
  | .returned _ (some _) => true
  | _ => false

/-- Whether the call ended in a panic. -/
def Outcome.isPanic : Outcome → Bool
  | .returned _ _ => false
  | .panicked _ => true

/-- Append one call to the ghost log. -/
def StateMachine.emit (sm : StateMachine) (e : Event) : StateMachine :=
  { sm with log := sm.log ++ [e] }

/-- The constructor `NewStateMachine`. -/
def NewStateMachine (smi : StateMachineInterface) (stateMap : StateMap) : StateMachine :=
  { smi := smi, stateMap := stateMap, initing := false, running := false,
    stateNow := none, stateLast := none, log := [] }

/-- The method `StateMachine.Start`.  Calling `StateIn` on a nil map value is
a nil dereference. -/
def Start (firstState : String) (sm : StateMachine) : Outcome :=
  if sm.initing || sm.running then
    .returned sm (some .alreadyStarted)
  else
    match sm.stateMap.States.lookup firstState with
    | none => .returned sm (some (.stateNotFound firstState))
    | some state =>
      let sm := { sm with initing := true }
      let err := sm.smi.InitData sm.log
      let sm := sm.emit .initData
      match err with
      | some e =>
        let sm := { sm with initing := false }
        .returned sm (some (.initDataFailed e))
      | none =>
        let sm := { sm with stateNow := state }
        match sm.stateNow with
        | none => .panicked sm
        | some now =>
          let err := now.StateIn sm.log
          let sm := sm.emit (.stateIn now.GetName)
          match err with
          | some e =>
            let sm := { sm with initing := false }
            .returned sm (some (.stateInFailed e))
          | none =>
            let sm := { sm with running := true }
            let sm := { sm with initing := false }
            .returned sm none

/-- The method `StateMachine.doChangeState`.  Indexing the map with an absent
key gives nil, as does a nil map value. -/
def doChangeState (stateName : String) (sm : StateMachine) : Outcome :=
  match sm.stateNow with
  | none => .returned sm (some .currentUndefined)
  | some now =>
    let newState : Option State := (sm.stateMap.States.lookup stateName).join
    let r := sm.smi.CheckStateChange sm.log now newState
    let sm := sm.emit (.checkStateChange now.GetName (newState.map State.GetName))
    match r.2 with
    | some e => .returned sm (some (.checkFailed e))
    | none =>
      if !r.1 then
        .returned sm (some (.notAllowed now.GetName stateName))
      else
        let err := now.StateOut sm.log
        let sm := sm.emit (.stateOut now.GetName)
        match err with
        | some e => .returned sm (some (.stateOutFailed e))
        | none =>
          let sm := { sm with stateLast := sm.stateNow }
          let sm := { sm with stateNow := newState }
          match sm.stateNow with
          | none => .panicked sm
          | some entered =>
            let err := entered.StateIn sm.log
            let sm := sm.emit (.stateIn entered.GetName)
            match err with
            | some e => .returned sm (some (.stateInFailed e))
            | none =>
              let sm := { sm with stateLast := none }
              .returned sm none

/-- The method `StateMachine.ChangeState`. -/
def ChangeState (stateName : String) (sm : StateMachine) : Outcome :=
  if !sm.running then
    .returned sm (some .notRunning)
  else
    match sm.stateMap.States.lookup stateName with
    | none => .returned sm (some (.stateNotFound stateName))
    | some _ => doChangeState stateName sm

/-- The method `StateMachine.GetCurrentState`. -/
def GetCurrentState (sm : StateMachine) : Option State :=
  sm.stateNow

/-- The method `StateMachine.IsRunning`. -/
def IsRunning (sm : StateMachine) : Bool :=
  sm.running

/-- The test double `MockState`: fixed results for `StateIn` and `StateOut`. -/
def MockState (name : String) (stateInError stateOutError : Option String) : State :=
  { GetName := name, StateIn := fun _ => stateInError, StateOut := fun _ => stateOutError }

/-- The test double `MockStateMachine`: fixed results for the guard. -/
def MockStateMachine (initError checkChangeError : Option String) (allowChange : Bool) :
    StateMachineInterface :=
  { InitData := fun _ => initError,
    CheckStateChange := fun _ _ _ => (allowChange, checkChangeError) }

/-- The state map of the `StateIn failed` case of `TestStateMachine_ChangeState`:
`state2` fails to enter. -/
def enterFailsMap : StateMap :=
  { States := [("state1", some (MockState "state1" none none)),
               ("state2", some (MockState "state2" (some "state in failed") none))] }

/-- The state map of the `StateOut failed` case of `TestStateMachine_ChangeState`:
`state1` fails to exit. -/
def exitFailsMap : StateMap :=
  { States := [("state1", some (MockState "state1" none (some "state out failed"))),
               ("state2", some (MockState "state2" none none))] }

/-- A sequence of `ChangeState` calls, one for each name in order, stopped at
the first call that returns an error or panics. -/
def ChangeStates : List String → StateMachine → Outcome
  | [], sm => .returned sm none
  | stateName :: rest, sm =>
    match ChangeState stateName sm with
    | .returned sm1 none => ChangeStates rest sm1
    | o => o

/-- The state map of `TestStateMachine_CompleteWorkflow`, with the names of
the specification's end-to-end example. -/
def gameMap : StateMap :=
  { States := [("menu", some (MockState "menu" none none)),
               ("play", some (MockState "play" none none)),
               ("pause", some (MockState "pause" none none))] }

/-- One call of a caller of the state machine. -/
inductive Call where
  | start (firstState : String)
  | changeState (stateName : String)
deriving DecidableEq, Repr

/-- Perform one call. -/
def call : Call → StateMachine → Outcome
  | .start firstState, sm => Start firstState sm
  | .changeState stateName, sm => ChangeState stateName sm

/-- The machine after a sequence of calls, each made on the machine the
previous one left, whatever it returned. -/
def runCalls : List Call → StateMachine → StateMachine
  | [], sm => sm
  | c :: cs, sm => runCalls cs (call c sm).machine

/-- No key of the state map holds a nil state. -/
def NoNilValues (stateMap : StateMap) : Prop :=
  ∀ k v, stateMap.States.lookup k = some v → v ≠ none

/-- When the machine is running it has a current state, and that state is a
value of its state map. -/
def CurrentWhenRunning (sm : StateMachine) : Prop :=
  sm.running = true →
    ∃ s k, sm.stateNow = some s ∧ sm.stateMap.States.lookup k = some (some s)

end statemachine

namespace lbox

/-- The struct `ManifoldValve` of `pkg/ManifoldValve.go`.  The Go map `data`
is a list with one entry for each key; values of type `interface{}` are values
of `α`.  The ghost field `opened` holds the argument of every call of
`outputImp.OnValveOpen`, in call order. -/
structure ManifoldValve (α : Type) where
  valveList : List String
  data : List (String × α)
  opened : List (List (String × α))

/-- The map assignment `m[key] = value`. -/
def mapSet {α : Type} (key : String) (value : α) : List (String × α) → List (String × α)
  | [] => [(key, value)]
  | (k, v) :: rest =>
    if k = key then (key, value) :: rest else (k, v) :: mapSet key value rest

/-- The constructor `NewManifoldValve`. -/
def NewManifoldValve {α : Type} (valveList : List String) : ManifoldValve α :=
  { valveList := valveList, data := [], opened := [] }

/-- The function `contains`. -/
def contains : List String → String → Bool
  | [], _ => false
  | k :: keys, key => if k = key then true else contains keys key

/-- The loop of `Input` over the rest of `valveList`, on the map `data`. -/
def inputLoop {α : Type} (valveName : String) (value : α) :
    List String → List (String × α) → List (String × α)
  | [], data => data
  | iterator :: rest, data =>
    if iterator = valveName then inputLoop valveName value rest (mapSet valveName value data)
    else inputLoop valveName value rest data

/-- The second loop of `CheckValve` over the rest of `valveList`, with the
current value of `ready`. -/
def countReady (readyKeys : List String) : List String → Nat → Nat
  | [], ready => ready
  | iterator :: rest, ready =>
    if contains readyKeys iterator then countReady readyKeys rest (ready + 1)
    else countReady readyKeys rest ready

/-- The method `CheckValve`.  `readyKeys` are the keys of the map; the order
in which Go ranges over a map does not matter to `contains`. -/
def CheckValve {α : Type} (mv : ManifoldValve α) : ManifoldValve α :=
  let readyKeys := mv.data.map Prod.fst
  let ready := countReady readyKeys mv.valveList 0
  if mv.valveList.length = ready then
    { mv with opened := mv.opened ++ [mv.data] }
  else mv

/-- The method `Input`. -/
def Input {α : Type} (valveName : String) (value : α) (mv : ManifoldValve α) :
    ManifoldValve α :=
  CheckValve { mv with data := inputLoop valveName value mv.valveList mv.data }

/-- A sequence of `Input` calls, in order. -/
def Inputs {α : Type} : List (String × α) → ManifoldValve α → ManifoldValve α
  | [], mv => mv
  | (valveName, value) :: rest, mv => Inputs rest (Input valveName value mv)

/-- The value most recently supplied for `key` by a sequence of inputs. -/
def latest {α : Type} (key : String) : List (String × α) → Option α
  | [] => none
  | (k, v) :: rest =>
    match latest key rest with
    | some w => some w
    | none => if k = key then some v else none

/-- A value of the interface `StepDisposer` of `pkg/Mission.go`: the result of
`StepName()` and the identity of the object that implements the interface. -/
structure StepDisposer where
  StepName : String
  obj : Nat
deriving DecidableEq, Repr

/-- The struct `Mission` of `pkg/Mission.go`, the sequencer without a queue.
`tags` is never written and is left out; the ghost field `disposed` holds the
steps whose `Dispose` has been invoked, in call order. -/
structure Mission where
  stepList : List StepDisposer
  stepNow : Option StepDisposer
  running : Bool
  disposed : List StepDisposer
deriving DecidableEq, Repr

/-- Result of a method call on a `Mission`: normal return or panic, with the
receiver's state. -/
inductive Outcome where
  | done (m : Mission)
  | panicked (m : Mission)
deriving DecidableEq, Repr

/-- The receiver's state when the call ended. -/
def Outcome.state : Outcome → Mission
  | .done m => m
  | .panicked m => m

/-- Sequencing of calls: a panic stops the sequence. -/
def Outcome.bind (o : Outcome) (f : Mission → Outcome) : Outcome :=
  match o with
  | .done m => f m
  | .panicked m => .panicked m

/-- The constructor `NewMission` of `pkg/Mission.go`. -/
def NewMission (stepList : List StepDisposer) : Mission :=
  { stepList := stepList, stepNow := none, running := false, disposed := [] }

/-- The method `Mission.Start` of `pkg/Mission.go`.  `m.stepList[0]` on an
empty list panics. -/
def Start (m : Mission) : Outcome :=
  if m.running then
    .done m
  else
    match m.stepList with
    | [] => .panicked m
    | s :: _ =>
      let m := { m with stepNow := some s }
      .done { m with disposed := m.disposed ++ [s] }

/-- The loop of `GoNext` of `pkg/Mission.go` on the rest of the list, with the
current value of the local `next`.  The result is the mission, the value of
`next`, and whether the loop ended by the `return` inside it; `none` is the
nil dereference of `m.stepNow.StepName()`. -/
def goNextLoop : List StepDisposer → Bool → Mission → Option (Mission × Bool × Bool)
  | [], next, m => some (m, next, false)
  | iterator :: rest, next, m =>
    if next then
      let m := { m with stepNow := some iterator }
      some ({ m with disposed := m.disposed ++ [iterator] }, next, true)
    else
      match m.stepNow with
      | none => none
      | some now =>
        if iterator.StepName = now.StepName then goNextLoop rest true m
        else goNextLoop rest false m

/-- The method `Mission.GoNext` of `pkg/Mission.go`. -/
def GoNext (m : Mission) : Outcome :=
  match goNextLoop m.stepList false m with
  | none => .panicked m
  | some (m, next, returned) =>
    if returned then .done m
    else if next then .done { m with running := false }
    else .done m

/-- The method `Mission.Jump` of `pkg/Mission.go`: every step with the given
name is dispatched, in list order. -/
def Jump (stepName : String) (m : Mission) : Outcome :=
  .done (m.stepList.foldl
    (fun m iterator =>
      if iterator.StepName = stepName then
        { m with stepNow := some iterator, disposed := m.disposed ++ [iterator] }
      else m) m)

/-- Example steps for `pkg/Mission.go`. -/
def stepA : StepDisposer := ⟨"A", 1⟩

/-- Second example step for `pkg/Mission.go`. -/
def stepB : StepDisposer := ⟨"B", 2⟩

end lbox

namespace mission

/-! ### Basic facts about the ghost log -/

theorem disposedOf_append (a b : List Event) :
    disposedOf (a ++ b) = disposedOf a ++ disposedOf b := by
  induction a with
  | nil => rfl
  | cons e es ih => cases e <;> simp [disposedOf, ih]

@[simp]
theorem disposed_emit_lock (m : Mission) : (m.emit .lock).disposed = m.disposed := by
  simp [Mission.disposed, Mission.emit, disposedOf_append, disposedOf]

@[simp]
theorem disposed_emit_unlock (m : Mission) : (m.emit .unlock).disposed = m.disposed := by
  simp [Mission.disposed, Mission.emit, disposedOf_append, disposedOf]

@[simp]
theorem disposed_emit_goTick (m : Mission) : (m.emit .goTick).disposed = m.disposed := by
  simp [Mission.disposed, Mission.emit, disposedOf_append, disposedOf]

@[simp]
theorem disposed_emit_dispose (m : Mission) (s : StepDisposer) :
    (m.emit (.dispose s)).disposed = m.disposed ++ [s] := by
  simp [Mission.disposed, Mission.emit, disposedOf_append, disposedOf]

/-! ### The scan for the successor of the current step -/

theorem nextLoop_true (l : List StepDisposer) (m : Mission) :
    nextLoop l true m =
      match l with
      | [] => some (m, true)
      | s :: _ => some (({ m with stepNow := some s }).emit (.dispose s), false) := by
  cases l <;> simp [nextLoop]

theorem nextLoop_skip (pre : List StepDisposer) (cur now : StepDisposer)
    (post : List StepDisposer) (m : Mission) (hnow : m.stepNow = some now)
    (hcur : cur.StepName = now.StepName)
    (hpre : ∀ s ∈ pre, s.StepName ≠ now.StepName) :
    nextLoop (pre ++ cur :: post) false m = nextLoop post true m := by
  induction pre with
  | nil => simp [nextLoop, hnow, hcur]
  | cons p ps ih =>
    have hp : p.StepName ≠ now.StepName := hpre p (List.mem_cons_self _ _)
    have hps : ∀ s ∈ ps, s.StepName ≠ now.StepName :=
      fun s hs => hpre s (List.mem_cons_of_mem _ hs)
    simp [nextLoop, hnow, hp, ih hps]

theorem name_not_mem_of_nodup (pre : List StepDisposer) (cur : StepDisposer)
    (post : List StepDisposer) (hnd : (names (pre ++ cur :: post)).Nodup) :
    (∀ s ∈ pre, s.StepName ≠ cur.StepName) ∧ (∀ s ∈ post, s.StepName ≠ cur.StepName) := by
  unfold names at hnd
  rw [List.map_append, List.map_cons] at hnd
  have h := List.nodup_middle.mp hnd
  rw [List.nodup_cons] at h
  have hnot := h.1
  constructor
  · intro s hs heq
    exact hnot (List.mem_append_left _ (heq ▸ List.mem_map_of_mem _ hs))
  · intro s hs heq
    exact hnot (List.mem_append_right _ (heq ▸ List.mem_map_of_mem _ hs))

/-! ### One call on a sequencer that is at a known step -/

theorem GoNext_atStep {steps : List StepDisposer} {m : Mission}
    {pre : List StepDisposer} {cur : StepDisposer} {post : List StepDisposer} {q : Nat}
    (h : AtStep steps m pre cur post q) :
    ∃ m1, GoNext m = .done m1 ∧ AtStep steps m1 pre cur post (q + 1) := by
  refine ⟨_, rfl, ?_⟩
  obtain ⟨hs, hl, hn, hr, hi, hq, hd⟩ := h
  refine ⟨hs, ?_, ?_, ?_, ?_, ?_, ?_⟩
  · simpa [Mission.emit] using hl
  · simpa [Mission.emit] using hn
  · simpa [Mission.emit] using hr
  · simpa [Mission.emit] using hi
  · simp [Mission.emit, hq, List.replicate_succ']
  · simpa [Mission.disposed, Mission.emit, disposedOf_append, disposedOf] using hd

theorem tick_atStep_idle {steps : List StepDisposer} {m : Mission}
    {pre : List StepDisposer} {cur : StepDisposer} {post : List StepDisposer}
    (h : AtStep steps m pre cur post 0) :
    ∃ m1, tick m = .done m1 ∧ AtStep steps m1 pre cur post 0 := by
  obtain ⟨hs, hl, hn, hr, hi, hq, hd⟩ := h
  simp only [List.replicate_zero] at hq
  refine ⟨(((m.emit .lock).emit .unlock).emit .goTick), ?_, ?_⟩
  · simp [tick, Mission.emit, hr, hi, hq]
  · refine ⟨hs, ?_, ?_, ?_, ?_, ?_, ?_⟩
    · simpa [Mission.emit] using hl
    · simpa [Mission.emit] using hn
    · simpa [Mission.emit] using hr
    · simpa [Mission.emit] using hi
    · simpa [Mission.emit] using hq
    · simpa [Mission.disposed, Mission.emit, disposedOf_append, disposedOf] using hd

theorem tick_atStep_succ {steps : List StepDisposer} {m : Mission}
    {pre : List StepDisposer} {cur nxt : StepDisposer} {post : List StepDisposer} {q : Nat}
    (hnd : (names steps).Nodup)
    (h : AtStep steps m pre cur (nxt :: post) (q + 1)) :
    ∃ m1, tick m = .done m1 ∧ AtStep steps m1 (pre ++ [cur]) nxt post q := by
  obtain ⟨hs, hl, hn, hr, hi, hq, hd⟩ := h
  have hpre := (name_not_mem_of_nodup pre cur (nxt :: post) (hs ▸ hnd)).1
  have hscan : ∀ m0 : Mission, m0.stepNow = some cur →
      nextLoop steps false m0 =
        some (({ m0 with stepNow := some nxt }).emit (.dispose nxt), false) := by
    intro m0 h0
    rw [hs, nextLoop_skip pre cur cur (nxt :: post) m0 h0 rfl hpre, nextLoop_true]
  rw [List.replicate_succ] at hq
  obtain ⟨sl, sn, r, sr, tl, lg⟩ := m
  simp only at hl hn hr hi hq
  subst hl hn hr hi hq
  refine ⟨{ stepList := sl, stepNow := some nxt, running := true, stepRunning := false,
            taskList := List.replicate q "next",
            log := lg ++ [.lock, .dispose nxt, .unlock, .goTick] }, ?_, ?_⟩
  · simp only [tick, Mission.emit]
    simp only [Bool.not_true, Bool.false_eq_true, if_false, if_true]
    rw [hscan _ rfl]
    simp [Mission.emit]
  · refine ⟨by simp [hs], rfl, rfl, rfl, rfl, rfl, ?_⟩
    simp only [Mission.disposed] at hd
    simp [Mission.disposed, disposedOf_append, disposedOf, hd]

theorem tick_atStep_last {steps : List StepDisposer} {m : Mission}
    {pre : List StepDisposer} {cur : StepDisposer} {q : Nat}
    (hnd : (names steps).Nodup)
    (h : AtStep steps m pre cur [] (q + 1)) :
    ∃ m1, tick m = .done m1 ∧ Finished steps m1 := by
  obtain ⟨hs, hl, hn, hr, hi, hq, hd⟩ := h
  have hpre := (name_not_mem_of_nodup pre cur [] (hs ▸ hnd)).1
  have hscan : ∀ m0 : Mission, m0.stepNow = some cur →
      nextLoop steps false m0 = some (m0, true) := by
    intro m0 h0
    rw [hs, nextLoop_skip pre cur cur [] m0 h0 rfl hpre, nextLoop_true]
  rw [List.replicate_succ] at hq
  obtain ⟨sl, sn, r, sr, tl, lg⟩ := m
  simp only at hl hn hr hi hq
  subst hl hn hr hi hq
  refine ⟨{ stepList := sl, stepNow := some cur, running := false, stepRunning := false,
            taskList := List.replicate q "next",
            log := lg ++ [.lock, .unlock] }, ?_, ?_⟩
  · simp only [tick, Mission.emit]
    simp only [Bool.not_true, Bool.false_eq_true, if_false, if_true]
    rw [hscan _ rfl]
    simp
  · refine ⟨rfl, by simp [hs], rfl, rfl, ?_⟩
    simp only [Mission.disposed] at hd
    simp [Mission.disposed, disposedOf_append, disposedOf, hd, hs]

theorem call_finished {steps : List StepDisposer} {m : Mission} (c : Call)
    (h : Finished steps m) : ∃ m1, call c m = .done m1 ∧ Finished steps m1 := by
  obtain ⟨hl, hn, hr, hi, hd⟩ := h
  obtain ⟨sl, sn, r, sr, tl, lg⟩ := m
  simp only at hl hn hr hi
  subst hl hn hr hi
  simp only [Mission.disposed] at hd
  cases c with
  | goNext =>
    refine ⟨_, rfl, rfl, rfl, rfl, rfl, ?_⟩
    simp [Mission.disposed, Mission.emit, disposedOf_append, disposedOf, hd]
  | tick =>
    refine ⟨{ stepList := sl, stepNow := sl.getLast?, running := false, stepRunning := false,
              taskList := tl, log := lg ++ [.lock, .unlock] }, ?_, rfl, rfl, rfl, rfl, ?_⟩
    · simp [call, tick, Mission.emit]
    · simp [Mission.disposed, disposedOf_append, disposedOf, hd]

theorem run_finished {steps : List StepDisposer} (sched : List Call) :
    ∀ {m : Mission}, Finished steps m →
      ∃ m1, run sched m = .done m1 ∧ Finished steps m1 := by
  induction sched with
  | nil => intro m h; exact ⟨m, rfl, h⟩
  | cons c cs ih =>
    intro m h
    obtain ⟨m1, h1, hf⟩ := call_finished c h
    obtain ⟨m2, h2, hf2⟩ := ih hf
    exact ⟨m2, by simp [run, h1, Outcome.bind, h2], hf2⟩

theorem atStep_position {steps : List StepDisposer} {m : Mission}
    {pre : List StepDisposer} {cur : StepDisposer} {post : List StepDisposer} {q : Nat}
    (h : AtStep steps m pre cur post q) :
    m.disposed = steps.take (pre.length + 1) ∧ m.stepNow = steps[pre.length]? := by
  obtain ⟨hs, _, hn, _, _, _, hd⟩ := h
  subst hs
  constructor
  · rw [hd, List.take_append_eq_append_take]
    simp
  · rw [hn, List.getElem?_append_right (le_refl _)]
    simp

theorem run_atStep {steps : List StepDisposer} (hnd : (names steps).Nodup)
    (sched : List Call) :
    ∀ (pre : List StepDisposer) (cur : StepDisposer) (post : List StepDisposer)
      (q : Nat) (m : Mission),
      AtStep steps m pre cur post q → passes sched q ≤ post.length →
      ∃ m1, run sched m = .done m1 ∧
        m1.disposed = steps.take (pre.length + passes sched q + 1) ∧
        m1.stepNow = steps[pre.length + passes sched q]? ∧
        m1.running = true ∧ m1.stepRunning = false := by
  induction sched with
  | nil =>
    intro pre cur post q m h _
    have hp := atStep_position h
    exact ⟨m, rfl, by simpa [passes] using hp.1, by simpa [passes] using hp.2, h.run, h.idle⟩
  | cons c cs ih =>
    intro pre cur post q m h hle
    cases c with
    | goNext =>
      obtain ⟨m1, h1, ha⟩ := GoNext_atStep h
      obtain ⟨m2, h2, hres⟩ := ih pre cur post (q + 1) m1 ha (by simpa [passes] using hle)
      exact ⟨m2, by simp [run, call, h1, Outcome.bind, h2], by simpa [passes] using hres⟩
    | tick =>
      cases q with
      | zero =>
        obtain ⟨m1, h1, ha⟩ := tick_atStep_idle h
        obtain ⟨m2, h2, hres⟩ := ih pre cur post 0 m1 ha (by simpa [passes] using hle)
        exact ⟨m2, by simp [run, call, h1, Outcome.bind, h2], by simpa [passes] using hres⟩
      | succ q =>
        simp only [passes] at hle ⊢
        cases post with
        | nil => simp at hle
        | cons nxt post =>
          obtain ⟨m1, h1, ha⟩ := tick_atStep_succ hnd h
          obtain ⟨m2, h2, hres⟩ := ih (pre ++ [cur]) nxt post q m1 ha
            (by simpa using hle)
          refine ⟨m2, by simp [run, call, h1, Outcome.bind, h2], ?_⟩
          have e : (pre ++ [cur]).length + passes cs q = pre.length + (passes cs q + 1) := by
            simp; omega
          rw [e] at hres
          exact hres

theorem run_atStep_finish {steps : List StepDisposer} (hnd : (names steps).Nodup)
    (sched : List Call) :
    ∀ (pre : List StepDisposer) (cur : StepDisposer) (post : List StepDisposer)
      (q : Nat) (m : Mission),
      AtStep steps m pre cur post q → passes sched q = post.length + 1 →
      ∃ m1, run sched m = .done m1 ∧ Finished steps m1 := by
  induction sched with
  | nil =>
    intro pre cur post q m _ he
    simp [passes] at he
  | cons c cs ih =>
    intro pre cur post q m h he
    cases c with
    | goNext =>
      obtain ⟨m1, h1, ha⟩ := GoNext_atStep h
      obtain ⟨m2, h2, hres⟩ := ih pre cur post (q + 1) m1 ha (by simpa [passes] using he)
      exact ⟨m2, by simp [run, call, h1, Outcome.bind, h2], hres⟩
    | tick =>
      cases q with
      | zero =>
        obtain ⟨m1, h1, ha⟩ := tick_atStep_idle h
        obtain ⟨m2, h2, hres⟩ := ih pre cur post 0 m1 ha (by simpa [passes] using he)
        exact ⟨m2, by simp [run, call, h1, Outcome.bind, h2], hres⟩
      | succ q =>
        simp only [passes] at he
        cases post with
        | nil =>
          obtain ⟨m1, h1, hf⟩ := tick_atStep_last hnd h
          obtain ⟨m2, h2, hf2⟩ := run_finished cs hf
          exact ⟨m2, by simp [run, call, h1, Outcome.bind, h2], hf2⟩
        | cons nxt post =>
          obtain ⟨m1, h1, ha⟩ := tick_atStep_succ hnd h
          obtain ⟨m2, h2, hres⟩ := ih (pre ++ [cur]) nxt post q m1 ha
            (by simpa using he)
          exact ⟨m2, by simp [run, call, h1, Outcome.bind, h2], hres⟩

theorem Start_new_atStep (s : StepDisposer) (rest : List StepDisposer) :
    ∃ m0, Start (NewMission (s :: rest)) = .done m0 ∧
      AtStep (s :: rest) m0 [] s rest 0 := by
  refine ⟨_, rfl, rfl, rfl, rfl, rfl, rfl, rfl, ?_⟩
  simp [Mission.disposed, Mission.emit, NewMission, disposedOf]

/-! ### C1: steps run in list order, once each, and the run stops after the last -/

/-- C1. For a non-empty step list of length `L` with pairwise distinct names,
`Start()` on a new sequencer returns, and for every later sequence of `GoNext`
calls and polling passes: when `k ≤ L - 1` passes have processed a queued
advance request, `Dispose` has been invoked on exactly `steps[0], ..., steps[k]`
in this order, the current step is `steps[k]` and `running` is true; when `L`
passes have processed one, the `Dispose` calls are still exactly those of the
`L` steps (the `L`-th pass invoked none) and `running` is false. -/
theorem sequencer_runs_steps_in_order (steps : List StepDisposer)
    (hne : steps ≠ []) (hnd : (names steps).Nodup) (sched : List Call) :
    ∃ m0, Start (NewMission steps) = .done m0 ∧
      (passes sched 0 ≤ steps.length - 1 →
        ∃ m, run sched m0 = .done m ∧
          m.disposed = steps.take (passes sched 0 + 1) ∧
          m.stepNow = steps[passes sched 0]? ∧
          m.running = true ∧ m.stepRunning = false) ∧
      (passes sched 0 = steps.length →
        ∃ m, run sched m0 = .done m ∧
          m.disposed = steps ∧ m.stepNow = steps.getLast? ∧ m.running = false) := by
  cases steps with
  | nil => exact absurd rfl hne
  | cons s rest =>
    obtain ⟨m0, h0, ha⟩ := Start_new_atStep s rest
    refine ⟨m0, h0, ?_, ?_⟩
    · intro hk
      obtain ⟨m, hm, hres⟩ := run_atStep hnd sched [] s rest 0 m0 ha (by simpa using hk)
      exact ⟨m, hm, by simpa using hres⟩
    · intro hk
      obtain ⟨m, hm, hf⟩ := run_atStep_finish hnd sched [] s rest 0 m0 ha (by simpa using hk)
      exact ⟨m, hm, hf.disp, hf.now, hf.stopped⟩

/-- Witness for C1: three steps; of five calls, two polling passes find a queued
advance request and one finds the queue empty. -/
theorem sequencer_runs_steps_in_order_witness :
    [step1, step2, step3] ≠ [] ∧ (names [step1, step2, step3]).Nodup ∧
    passes [.goNext, .tick, .tick, .goNext, .tick] 0 = 2 ∧
    ∃ m0 m, Start (NewMission [step1, step2, step3]) = .done m0 ∧
      run [.goNext, .tick, .tick, .goNext, .tick] m0 = .done m ∧
      m.disposed = [step1, step2, step3] ∧ m.stepNow = some step3 ∧
      m.running = true := by
  obtain ⟨m0, h0, h1, _⟩ := sequencer_runs_steps_in_order [step1, step2, step3]
    (by decide) (by decide) [.goNext, .tick, .tick, .goNext, .tick]
  obtain ⟨m, hm, hd, hn, hr, _⟩ := h1 (by decide)
  exact ⟨by decide, by decide, by decide, m0, m, h0, hm, hd, hn, hr⟩

/-! ### C2: `Jump` followed by one polling pass -/

theorem hasJumpTask_eq_true_iff (l : List String) :
    hasJumpTask l = true ↔ ∃ t ∈ l, t ≠ "next" := by
  induction l with
  | nil => simp [hasJumpTask]
  | cons t ts ih =>
    by_cases ht : t = "next"
    · simp [hasJumpTask, ht, ih]
    · simp [hasJumpTask, ht]

theorem hasJumpTask_eq_false_iff (l : List String) :
    hasJumpTask l = false ↔ ∀ t ∈ l, t = "next" := by
  rw [← Bool.not_eq_true, hasJumpTask_eq_true_iff]
  simp

theorem jumpExists_of_mem (n : String) (l : List StepDisposer) (m : Mission)
    (h : n ∈ names l) :
    jumpExists n l m = ({ m with taskList := m.taskList ++ [n] }, true) := by
  induction l with
  | nil => simp [names] at h
  | cons x xs ih =>
    by_cases hx : x.StepName = n
    · simp [jumpExists, hx]
    · have : n ∈ names xs := by
        simp only [names, List.map_cons, List.mem_cons] at h
        rcases h with h | h
        · exact absurd h.symm hx
        · exact h
      simp [jumpExists, hx, ih this]

theorem jumpExists_of_not_mem (n : String) (l : List StepDisposer) (m : Mission)
    (h : n ∉ names l) : jumpExists n l m = (m, false) := by
  induction l with
  | nil => rfl
  | cons x xs ih =>
    simp only [names, List.map_cons, List.mem_cons, not_or] at h
    have hx : ¬ x.StepName = n := fun e => h.1 e.symm
    simp [jumpExists, hx, ih h.2]

theorem jumpLoop_of_mem (n : String) (l : List StepDisposer) (m : Mission)
    (s : StepDisposer) (hnd : (names l).Nodup) (hs : s ∈ l) (hn : s.StepName = n) :
    jumpLoop n l m = ({ m with stepNow := some s }).emit (.dispose s) := by
  induction l with
  | nil => simp at hs
  | cons x xs ih =>
    simp only [names, List.map_cons, List.nodup_cons] at hnd
    by_cases hx : x.StepName = n
    · have hsx : s = x := by
        rcases List.mem_cons.mp hs with h | h
        · exact h
        · exact absurd (List.mem_map_of_mem StepDisposer.StepName h) (by rw [hn, ← hx]; exact hnd.1)
      simp [jumpLoop, hx, hsx]
    · have hsx : s ∈ xs := by
        rcases List.mem_cons.mp hs with h | h
        · exact absurd (h ▸ hn) hx
        · exact h
      simp [jumpLoop, hx, ih hnd.2 hsx]

/-- The part of C2 that the code satisfies: for a step whose name is not the
word `"next"`, `Jump` followed by one polling pass dispatches exactly that
step, makes it current and leaves `running` true. -/
theorem Jump_then_tick_dispatches (m : Mission) (s : StepDisposer)
    (hnd : (names m.stepList).Nodup) (hs : s ∈ m.stepList)
    (hname : s.StepName ≠ "next")
    (hrun : m.running = true) (hidle : m.stepRunning = false) (hq : m.taskList = []) :
    ∃ m1 m2, Jump s.StepName m = .done m1 ∧ tick m1 = .done m2 ∧
      m2.stepNow = some s ∧ m2.disposed = m.disposed ++ [s] ∧ m2.running = true ∧
      m2.stepRunning = false ∧ m2.taskList = [] := by
  obtain ⟨sl, sn, r, sr, tl, lg⟩ := m
  simp only at hnd hs hrun hidle hq
  subst hrun hidle hq
  have hmem : s.StepName ∈ names sl := List.mem_map_of_mem _ hs
  refine ⟨{ stepList := sl, stepNow := sn, running := true, stepRunning := false,
            taskList := [s.StepName], log := lg ++ [.lock, .unlock] },
          { stepList := sl, stepNow := some s, running := true, stepRunning := false,
            taskList := [], log := lg ++ [.lock, .unlock, .lock, .dispose s, .unlock, .goTick] },
          ?_, ?_, rfl, ?_, rfl, rfl, rfl⟩
  · simp [Jump, Mission.emit, hasJumpTask, jumpExists_of_mem _ _ _ hmem]
  · simp [tick, Mission.emit, hname, jumpLoop_of_mem _ _ _ s hnd hs rfl]
  · simp [Mission.disposed, disposedOf_append, disposedOf]

/-- C2 (the code at the failing input). With a step named `"next"`, the request
queued by `Jump("next")` is read back as an advance request: on
`[stepNext, step2]`, after `Start()` the current step is `stepNext`, the queue
is empty and the sequencer is running and idle; `Jump("next")` and one polling
pass then invoke `Dispose` on `step2` and make `step2` current.  On
`[step1, stepNext]` with `stepNext` current, the same two calls invoke no
`Dispose` and set `running` to false. -/
theorem Jump_to_step_named_next_advances :
    (Start (NewMission [stepNext, step2])).state.stepNow = some stepNext ∧
    (Start (NewMission [stepNext, step2])).state.taskList = [] ∧
    (Start (NewMission [stepNext, step2])).state.running = true ∧
    (Start (NewMission [stepNext, step2])).state.stepRunning = false ∧
    (((Start (NewMission [stepNext, step2])).bind (Jump "next")).bind tick).isPanic = false ∧
    (((Start (NewMission [stepNext, step2])).bind (Jump "next")).bind tick).state.stepNow
      = some step2 ∧
    (((Start (NewMission [stepNext, step2])).bind (Jump "next")).bind tick).state.disposed
      = [stepNext, step2] ∧
    (run [.goNext, .tick] (Start (NewMission [step1, stepNext])).state).state.stepNow
      = some stepNext ∧
    (run [.goNext, .tick] (Start (NewMission [step1, stepNext])).state).state.running
      = true ∧
    (((run [.goNext, .tick] (Start (NewMission [step1, stepNext])).state).bind
        (Jump "next")).bind tick).state.running = false ∧
    (((run [.goNext, .tick] (Start (NewMission [step1, stepNext])).state).bind
        (Jump "next")).bind tick).state.disposed = [step1, stepNext] := by
  decide

/-! ### C3: a second jump request is a panic -/

/-- The part of C3 that the code satisfies.  Whenever the queue already holds
a request that is not `"next"`, `Jump(name)` panics for every `name`, whether
or not it names a step, and the state at the panic has the queue, the current
step and both flags unchanged and no `Dispose` invoked.  On a queue of advance
requests only, `Jump(a)` for a step `a` whose name is not the word `"next"`
returns, and an immediately following `Jump(b)` panics for every `b`, leaving
the queue as the first call left it. -/
theorem Jump_panics_when_jump_queued :
    (∀ (m : Mission) (name : String), (∃ t ∈ m.taskList, t ≠ "next") →
      ∃ m1, Jump name m = .panicked m1 ∧ m1.taskList = m.taskList ∧
        m1.stepNow = m.stepNow ∧ m1.running = m.running ∧
        m1.stepRunning = m.stepRunning ∧ m1.stepList = m.stepList ∧
        m1.disposed = m.disposed) ∧
    (∀ (m : Mission) (a b : String), (∀ t ∈ m.taskList, t = "next") →
      a ∈ names m.stepList → a ≠ "next" →
      ∃ m1 m2, Jump a m = .done m1 ∧ m1.taskList = m.taskList ++ [a] ∧
        Jump b m1 = .panicked m2 ∧ m2.taskList = m.taskList ++ [a]) := by
  have main : ∀ (m : Mission) (name : String), (∃ t ∈ m.taskList, t ≠ "next") →
      ∃ m1, Jump name m = .panicked m1 ∧ m1.taskList = m.taskList ∧
        m1.stepNow = m.stepNow ∧ m1.running = m.running ∧
        m1.stepRunning = m.stepRunning ∧ m1.stepList = m.stepList ∧
        m1.disposed = m.disposed := by
    intro m name h
    have hj : hasJumpTask m.taskList = true := (hasJumpTask_eq_true_iff _).mpr h
    refine ⟨(m.emit .lock).emit .unlock, ?_, rfl, rfl, rfl, rfl, rfl, ?_⟩
    · simp [Jump, Mission.emit, hj]
    · simp
  refine ⟨main, ?_⟩
  intro m a b hq ha hne
  have hj : hasJumpTask m.taskList = false := (hasJumpTask_eq_false_iff _).mpr hq
  have h1 : Jump a m = .done (({ m with taskList := m.taskList ++ [a] }).emit .lock |>.emit .unlock) := by
    simp [Jump, Mission.emit, hj, jumpExists_of_mem _ _ _ ha]
  obtain ⟨m2, h2, ht, _⟩ := main _ b
    (show ∃ t ∈ ((({ m with taskList := m.taskList ++ [a] }).emit .lock).emit .unlock).taskList,
        t ≠ "next" from ⟨a, by simp [Mission.emit], hne⟩)
  exact ⟨_, _, h1, rfl, h2, ht⟩

/-- The scenario of `TestMission_TaskQueueValidation`: after `Start()` on
`[step1, step2]`, `Jump("step1")` returns and `Jump("step2")` panics. -/
theorem Jump_panics_when_jump_queued_witness :
    ∃ m1 m2, Jump "step1" (Start (NewMission [step1, step2])).state = .done m1 ∧
      m1.taskList = (Start (NewMission [step1, step2])).state.taskList ++ ["step1"] ∧
      Jump "step2" m1 = .panicked m2 ∧
      m2.taskList = (Start (NewMission [step1, step2])).state.taskList ++ ["step1"] :=
  Jump_panics_when_jump_queued.2 (Start (NewMission [step1, step2])).state "step1" "step2"
    (by decide) (by decide) (by decide)

/-- C3 (the code at the failing input). With a step named `"next"`, the
request queued by `Jump("next")` is not a jump request in the queue: on
`[stepNext, step2]`, after `Start()` the queue is empty; `Jump("next")`
returns and leaves the queue `["next"]`, in which the first loop of `Jump`
finds no jump request; the immediately following `Jump("step2")`, with no
polling pass in between, returns without panic and leaves the queue
`["next", "step2"]`. -/
theorem Jump_after_Jump_to_step_named_next_returns :
    (Start (NewMission [stepNext, step2])).isPanic = false ∧
    (Start (NewMission [stepNext, step2])).state.taskList = [] ∧
    ((Start (NewMission [stepNext, step2])).bind (Jump "next")).isPanic = false ∧
    ((Start (NewMission [stepNext, step2])).bind (Jump "next")).state.taskList
      = ["next"] ∧
    hasJumpTask ((Start (NewMission [stepNext, step2])).bind (Jump "next")).state.taskList
      = false ∧
    (((Start (NewMission [stepNext, step2])).bind (Jump "next")).bind
      (Jump "step2")).isPanic = false ∧
    (((Start (NewMission [stepNext, step2])).bind (Jump "next")).bind
      (Jump "step2")).state.taskList = ["next", "step2"] := by
  decide

/-! ### C4: a jump to an unknown step is rejected without effect -/

/-- C4. When the queue holds only advance requests and `name` is not the name
of any step, `Jump(name)` returns without panic, the queue, `running`, the busy
flag `stepRunning`, the current step and the step list are unchanged, and no
`Dispose` is invoked. -/
theorem Jump_unknown_step_rejected (m : Mission) (name : String)
    (hq : ∀ t ∈ m.taskList, t = "next") (hname : name ∉ names m.stepList) :
    ∃ m1, Jump name m = .done m1 ∧ m1.taskList = m.taskList ∧
      m1.running = m.running ∧ m1.stepRunning = m.stepRunning ∧
      m1.stepNow = m.stepNow ∧ m1.stepList = m.stepList ∧
      m1.disposed = m.disposed := by
  have hj : hasJumpTask m.taskList = false := (hasJumpTask_eq_false_iff _).mpr hq
  refine ⟨(m.emit .lock).emit .unlock, ?_, rfl, rfl, rfl, rfl, rfl, ?_⟩
  · simp [Jump, Mission.emit, hj, jumpExists_of_not_mem _ _ _ hname]
  · simp

/-- Witness for C4: a running sequencer with one advance request queued. -/
theorem Jump_unknown_step_rejected_witness :
    ∃ m1, Jump "nowhere" (run [.goNext] (Start (NewMission [step1, step2])).state).state
        = .done m1 ∧
      m1.taskList = (run [.goNext] (Start (NewMission [step1, step2])).state).state.taskList ∧
      m1.running = (run [.goNext] (Start (NewMission [step1, step2])).state).state.running ∧
      m1.stepRunning
        = (run [.goNext] (Start (NewMission [step1, step2])).state).state.stepRunning ∧
      m1.stepNow = (run [.goNext] (Start (NewMission [step1, step2])).state).state.stepNow ∧
      m1.stepList = (run [.goNext] (Start (NewMission [step1, step2])).state).state.stepList ∧
      m1.disposed = (run [.goNext] (Start (NewMission [step1, step2])).state).state.disposed :=
  Jump_unknown_step_rejected
    (run [.goNext] (Start (NewMission [step1, step2])).state).state "nowhere"
    (by decide) (by decide)

/-! ### C5: `Start` on a running sequencer -/

/-- C5. On a sequencer with `running == true`, `Start()` returns without
invoking any `Dispose` and leaves the current step, `running`, the busy flag
`stepRunning`, the queue and the step list unchanged; so on every one-step
list, `Start(); Start()` invokes `Dispose` on that step exactly once. -/
theorem Start_when_running_is_noop (m : Mission) (hrun : m.running = true) :
    (∃ m1, Start m = .done m1 ∧ m1.disposed = m.disposed ∧ m1.stepNow = m.stepNow ∧
      m1.running = m.running ∧ m1.stepRunning = m.stepRunning ∧
      m1.taskList = m.taskList ∧ m1.stepList = m.stepList) ∧
    (∀ s : StepDisposer, ∃ m1 m2, Start (NewMission [s]) = .done m1 ∧
      Start m1 = .done m2 ∧ m1.disposed = [s] ∧ m2.disposed = [s]) := by
  constructor
  · refine ⟨(m.emit .lock).emit .unlock, ?_, ?_, rfl, rfl, rfl, rfl, rfl⟩
    · simp [Start, Mission.emit, hrun]
    · simp
  · intro s
    refine ⟨_, _, rfl, rfl, ?_, ?_⟩ <;>
      simp [Mission.disposed, Mission.emit, NewMission, disposedOf]

/-- Witness for C5: the started sequencer of `TestMission_ConcurrencyControl`. -/
theorem Start_when_running_is_noop_witness :
    (Start (NewMission [step1])).state.running = true ∧
    (∃ m1, Start (Start (NewMission [step1])).state = .done m1 ∧
      m1.disposed = (Start (NewMission [step1])).state.disposed ∧
      m1.stepNow = (Start (NewMission [step1])).state.stepNow ∧
      m1.running = (Start (NewMission [step1])).state.running ∧
      m1.stepRunning = (Start (NewMission [step1])).state.stepRunning ∧
      m1.taskList = (Start (NewMission [step1])).state.taskList ∧
      m1.stepList = (Start (NewMission [step1])).state.stepList) ∧
    (∀ s : StepDisposer, ∃ m1 m2, Start (NewMission [s]) = .done m1 ∧
      Start m1 = .done m2 ∧ m1.disposed = [s] ∧ m2.disposed = [s]) :=
  ⟨by decide, Start_when_running_is_noop (Start (NewMission [step1])).state (by decide)⟩

/-! ### C6: one polling pass takes the head of the queue -/

theorem nextLoop_setTasks (x : List String) (l : List StepDisposer) (b : Bool) (m : Mission) :
    nextLoop l b { m with taskList := x } =
      (nextLoop l b m).map (fun p => ({ p.1 with taskList := x }, p.2)) := by
  obtain ⟨sl, sn, r, sr, tl, lg⟩ := m
  induction l generalizing b with
  | nil => rfl
  | cons it rest ih =>
    cases b with
    | true => simp [nextLoop, Mission.emit]
    | false =>
      cases sn with
      | none => simp [nextLoop]
      | some now =>
        by_cases he : it.StepName = now.StepName
        · simpa [nextLoop, he] using ih true
        · simpa [nextLoop, he] using ih false

theorem jumpLoop_setTasks (x : List String) (n : String) (l : List StepDisposer) (m : Mission) :
    jumpLoop n l { m with taskList := x } = { jumpLoop n l m with taskList := x } := by
  induction l with
  | nil => rfl
  | cons it rest ih =>
    by_cases he : it.StepName = n
    · simp [jumpLoop, he, Mission.emit]
    · simp [jumpLoop, he, ih]

theorem nextLoop_frame (l : List StepDisposer) (b : Bool) (m m1 : Mission) (n : Bool)
    (h : nextLoop l b m = some (m1, n)) :
    m1.taskList = m.taskList ∧ m1.running = m.running ∧ m1.stepRunning = m.stepRunning ∧
    m1.stepList = m.stepList ∧
    (m1.log = m.log ∨ ∃ s ∈ l, n = false ∧ m1.log = m.log ++ [.dispose s]) := by
  induction l generalizing b with
  | nil =>
    simp only [nextLoop, Option.some.injEq, Prod.mk.injEq] at h
    obtain ⟨rfl, _⟩ := h
    exact ⟨rfl, rfl, rfl, rfl, Or.inl rfl⟩
  | cons it rest ih =>
    cases b with
    | true =>
      simp only [nextLoop, if_true, Option.some.injEq, Prod.mk.injEq] at h
      obtain ⟨rfl, hn⟩ := h
      exact ⟨rfl, rfl, rfl, rfl, Or.inr ⟨it, List.mem_cons_self _ _, hn.symm, rfl⟩⟩
    | false =>
      cases hn : m.stepNow with
      | none => simp [nextLoop, hn] at h
      | some now =>
        simp only [nextLoop, hn, Bool.false_eq_true, if_false] at h
        have key : ∀ b1, nextLoop rest b1 m = some (m1, n) →
            m1.taskList = m.taskList ∧ m1.running = m.running ∧
            m1.stepRunning = m.stepRunning ∧ m1.stepList = m.stepList ∧
            (m1.log = m.log ∨
              ∃ s ∈ it :: rest, n = false ∧ m1.log = m.log ++ [.dispose s]) := by
          intro b1 hb
          obtain ⟨h1, h2, h3, h4, h5⟩ := ih b1 hb
          refine ⟨h1, h2, h3, h4, ?_⟩
          rcases h5 with h5 | ⟨s, hs, h5⟩
          · exact Or.inl h5
          · exact Or.inr ⟨s, List.mem_cons_of_mem _ hs, h5⟩
        by_cases he : it.StepName = now.StepName
        · rw [if_pos he] at h
          exact key true h
        · rw [if_neg he] at h
          exact key false h

theorem jumpLoop_frame (n : String) (l : List StepDisposer) (m : Mission) :
    (jumpLoop n l m).taskList = m.taskList ∧ (jumpLoop n l m).running = m.running ∧
    (jumpLoop n l m).stepRunning = m.stepRunning ∧
    (jumpLoop n l m).stepList = m.stepList ∧
    ((jumpLoop n l m).log = m.log ∨ ∃ s ∈ l, (jumpLoop n l m).log = m.log ++ [.dispose s]) := by
  induction l with
  | nil => exact ⟨rfl, rfl, rfl, rfl, Or.inl rfl⟩
  | cons it rest ih =>
    by_cases he : it.StepName = n
    · simp only [jumpLoop, he, if_true]
      exact ⟨rfl, rfl, rfl, rfl, Or.inr ⟨it, List.mem_cons_self _ _, rfl⟩⟩
    · simp only [jumpLoop, he, if_false]
      obtain ⟨h1, h2, h3, h4, h5⟩ := ih
      refine ⟨h1, h2, h3, h4, ?_⟩
      rcases h5 with h5 | ⟨s, hs, h5⟩
      · exact Or.inl h5
      · exact Or.inr ⟨s, List.mem_cons_of_mem _ hs, h5⟩

/-- C6. On a running sequencer that is not busy and whose queue `q` is not
empty, one polling pass leaves the queue equal to the tail of `q`, in order;
it ends the same way and in the same state, apart from that tail, as a pass on
the same sequencer holding the head of `q` alone, and it invokes `Dispose` at
most once.  `GoNext` appends its request at the back of the queue, and `Jump`
either leaves the queue as it is or appends its request at the back, so
requests leave the queue in the order they entered it. -/
theorem tick_processes_head_only (m : Mission) (hrun : m.running = true)
    (hidle : m.stepRunning = false) (hq : m.taskList ≠ []) :
    (tick m).state.taskList = m.taskList.tail ∧
    (tick m).isPanic = (tick { m with taskList := m.taskList.take 1 }).isPanic ∧
    (tick m).state =
      { (tick { m with taskList := m.taskList.take 1 }).state with
        taskList := m.taskList.tail } ∧
    ((tick m).state.disposed = m.disposed ∨
      ∃ s ∈ m.stepList, (tick m).state.disposed = m.disposed ++ [s]) ∧
    (GoNext m).isPanic = false ∧
    (GoNext m).state.taskList = m.taskList ++ ["next"] ∧
    (∀ name : String, (Jump name m).state.taskList = m.taskList ∨
      (Jump name m).state.taskList = m.taskList ++ [name]) := by
  obtain ⟨sl, sn, r, sr, tl, lg⟩ := m
  simp only at hrun hidle hq
  subst hrun hidle
  cases tl with
  | nil => exact absurd rfl hq
  | cons t rest =>
    refine ⟨?_, ?_, ?_, ?_, rfl, rfl, ?_⟩
    · by_cases ht : t = "next"
      · simp only [tick, Mission.emit, ht]
        simp only [Bool.not_true, Bool.false_eq_true, if_false, if_true]
        cases hl : nextLoop sl false _ with
        | none => rfl
        | some p =>
          obtain ⟨m1, n⟩ := p
          have hf := (nextLoop_frame _ _ _ _ _ hl).1
          cases n <;> simpa [Outcome.state] using hf
      · simp only [tick, Mission.emit, ht]
        simp only [Bool.not_true, Bool.false_eq_true, if_false]
        simpa [Outcome.state] using (jumpLoop_frame t sl _).1
    · by_cases ht : t = "next"
      · simp only [tick, Mission.emit, ht, List.take_succ_cons, List.take_zero]
        simp only [Bool.not_true, Bool.false_eq_true, if_false, if_true]
        have hs := nextLoop_setTasks rest sl false
          { stepList := sl, stepNow := sn, running := true, stepRunning := true,
            taskList := [], log := lg ++ [.lock] }
        simp only at hs
        rw [hs]
        cases nextLoop sl false _ with
        | none => rfl
        | some p =>
          obtain ⟨m1, n⟩ := p
          cases n <;> rfl
      · simp [tick, Mission.emit, ht, Outcome.isPanic]
    · by_cases ht : t = "next"
      · simp only [tick, Mission.emit, ht, List.take_succ_cons, List.take_zero, List.tail_cons]
        simp only [Bool.not_true, Bool.false_eq_true, if_false, if_true]
        have hs := nextLoop_setTasks rest sl false
          { stepList := sl, stepNow := sn, running := true, stepRunning := true,
            taskList := [], log := lg ++ [.lock] }
        simp only at hs
        rw [hs]
        cases nextLoop sl false _ with
        | none => rfl
        | some p =>
          obtain ⟨m1, n⟩ := p
          cases n <;> rfl
      · simp only [tick, Mission.emit, ht, List.take_succ_cons, List.take_zero, List.tail_cons]
        simp only [Bool.not_true, Bool.false_eq_true, if_false]
        have hs := jumpLoop_setTasks rest t sl
          { stepList := sl, stepNow := sn, running := true, stepRunning := true,
            taskList := [], log := lg ++ [.lock] }
        simp only at hs
        rw [hs]
        rfl
    · by_cases ht : t = "next"
      · simp only [tick, Mission.emit, ht]
        simp only [Bool.not_true, Bool.false_eq_true, if_false, if_true]
        cases hl : nextLoop sl false _ with
        | none => left; simp [Outcome.state, Mission.disposed, disposedOf_append, disposedOf]
        | some p =>
          obtain ⟨m1, n⟩ := p
          obtain ⟨_, _, _, _, hlog⟩ := nextLoop_frame _ _ _ _ _ hl
          rcases hlog with hlog | ⟨s, hs, _, hlog⟩
          · left
            cases n <;>
              simp [Outcome.state, Mission.disposed, disposedOf_append, disposedOf, hlog]
          · right
            refine ⟨s, hs, ?_⟩
            cases n <;>
              simp [Outcome.state, Mission.disposed, disposedOf_append, disposedOf, hlog]
      · simp only [tick, Mission.emit, ht]
        simp only [Bool.not_true, Bool.false_eq_true, if_false]
        obtain ⟨_, _, _, _, hlog⟩ := jumpLoop_frame t sl
          { stepList := sl, stepNow := sn, running := true, stepRunning := true,
            taskList := rest, log := lg ++ [.lock] }
        rcases hlog with hlog | ⟨s, hs, hlog⟩
        · left
          simp [Outcome.state, Mission.disposed, disposedOf_append, disposedOf, hlog]
        · right
          refine ⟨s, hs, ?_⟩
          simp [Outcome.state, Mission.disposed, disposedOf_append, disposedOf, hlog]
    · intro name
      cases hj : hasJumpTask (t :: rest) with
      | true => left; simp [Jump, Mission.emit, hj, Outcome.state]
      | false =>
        by_cases hn : name ∈ names sl
        · right
          simp [Jump, Mission.emit, hj, Outcome.state, jumpExists_of_mem _ _ _ hn]
        · left
          simp [Jump, Mission.emit, hj, Outcome.state, jumpExists_of_not_mem _ _ _ hn]

/-- Witness for C6: an advance request queued ahead of a jump request. -/
theorem tick_processes_head_only_witness :
    (tick (run [.goNext] ((Start (NewMission [step1, step2, step3])).bind
        (Jump "step3")).state).state).state.taskList = ["next"] ∧
    (tick (run [.goNext] ((Start (NewMission [step1, step2, step3])).bind
        (Jump "step3")).state).state).state.stepNow = some step3 :=
  ⟨(tick_processes_head_only
      (run [.goNext] ((Start (NewMission [step1, step2, step3])).bind (Jump "step3")).state).state
      (by decide) (by decide) (by decide)).1, by decide⟩

/-! ### C7: where `Dispose` is invoked relative to the critical section -/

theorem Start_newEvents (m : Mission) :
    newEvents m (Start m) = [.lock, .unlock] ∨
    ∃ s, newEvents m (Start m) = [.lock, .dispose s, .goTick, .unlock] := by
  obtain ⟨sl, sn, r, sr, tl, lg⟩ := m
  cases r with
  | true => left; simp [newEvents, Start, Mission.emit, Outcome.state]
  | false =>
    cases sl with
    | nil => left; simp [newEvents, Start, Mission.emit, Outcome.state]
    | cons s rest => right; exact ⟨s, by simp [newEvents, Start, Mission.emit, Outcome.state]⟩

theorem tick_newEvents (m : Mission) :
    newEvents m (tick m) = [.lock, .unlock] ∨
    newEvents m (tick m) = [.lock, .unlock, .goTick] ∨
    newEvents m (tick m) = [.lock] ∨
    ∃ s, newEvents m (tick m) = [.lock, .dispose s, .unlock, .goTick] := by
  obtain ⟨sl, sn, r, sr, tl, lg⟩ := m
  cases r with
  | false => left; simp [newEvents, tick, Mission.emit, Outcome.state]
  | true =>
    cases sr with
    | true => left; simp [newEvents, tick, Mission.emit, Outcome.state]
    | false =>
      cases tl with
      | nil => right; left; simp [newEvents, tick, Mission.emit, Outcome.state]
      | cons t rest =>
        by_cases ht : t = "next"
        · simp only [tick, Mission.emit, ht]
          simp only [Bool.not_true, Bool.false_eq_true, if_false, if_true]
          cases hl : nextLoop sl false _ with
          | none => right; right; left; simp [newEvents, Outcome.state]
          | some p =>
            obtain ⟨m1, n⟩ := p
            obtain ⟨_, _, _, _, hlog⟩ := nextLoop_frame _ _ _ _ _ hl
            simp only at hlog
            rcases hlog with hlog | ⟨s, _, hn, hlog⟩
            · cases n
              · right; left; simp [newEvents, Outcome.state, hlog]
              · left; simp [newEvents, Outcome.state, hlog]
            · subst hn
              right; right; right
              exact ⟨s, by simp [newEvents, Outcome.state, hlog]⟩
        · simp only [tick, Mission.emit, ht]
          simp only [Bool.not_true, Bool.false_eq_true, if_false]
          obtain ⟨_, _, _, _, hlog⟩ := jumpLoop_frame t sl
            { stepList := sl, stepNow := sn, running := true, stepRunning := true,
              taskList := rest, log := lg ++ [.lock] }
          simp only at hlog
          rcases hlog with hlog | ⟨s, _, hlog⟩
          · right; left; simp [newEvents, Outcome.state, hlog]
          · right; right; right
            exact ⟨s, by simp [newEvents, Outcome.state, hlog]⟩

/-- C7 (the code on this point). Every `Dispose` that `Start` or a polling
pass invokes is invoked between that call's `mu.Lock()` and its `mu.Unlock()`:
the mutex is held by the caller, whatever its state before the call.  On
`[step1, step2]` this is so for `step1` dispatched by `Start` and for `step2`
dispatched by a pass.  `GoNext` and `Jump` both begin by locking the same
mutex. -/
theorem Dispose_invoked_with_lock_held :
    (∀ (m : Mission) (held : Bool),
      ∀ p ∈ lockAtDispose (newEvents m (Start m)) held, p.2 = true) ∧
    (∀ (m : Mission) (held : Bool),
      ∀ p ∈ lockAtDispose (newEvents m (tick m)) held, p.2 = true) ∧
    lockAtDispose (Start (NewMission [step1, step2])).state.log false = [(step1, true)] ∧
    lockAtDispose (run [.goNext, .tick] (Start (NewMission [step1, step2])).state).state.log
      false = [(step1, true), (step2, true)] ∧
    (∀ m : Mission, newEvents m (GoNext m) = [.lock, .unlock]) ∧
    (∀ (m : Mission) (name : String), newEvents m (Jump name m) = [.lock, .unlock]) := by
  refine ⟨?_, ?_, by decide, by decide, ?_, ?_⟩
  · intro m held p hp
    rcases Start_newEvents m with h | ⟨s, h⟩ <;> rw [h] at hp <;>
      simp [lockAtDispose] at hp
    simp [hp]
  · intro m held p hp
    rcases tick_newEvents m with h | h | h | ⟨s, h⟩ <;> rw [h] at hp <;>
      simp [lockAtDispose] at hp
    simp [hp]
  · intro m
    simp [newEvents, GoNext, Mission.emit, Outcome.state]
  · intro m name
    cases hj : hasJumpTask m.taskList with
    | true => simp [newEvents, Jump, Mission.emit, Outcome.state, hj]
    | false =>
      by_cases hn : name ∈ names m.stepList
      · simp [newEvents, Jump, Mission.emit, Outcome.state, hj, jumpExists_of_mem _ _ _ hn]
      · simp [newEvents, Jump, Mission.emit, Outcome.state, hj, jumpExists_of_not_mem _ _ _ hn]

end mission

namespace statemachine

/-! ### C8: what a failed call leaves behind -/

/-- C8 (the code at the failing input). With the guard permitting and `state2`
failing to enter: after `Start("state1")` the machine is running in `state1`;
`ChangeState("state2")` returns the `StateIn` error, and afterwards
`GetCurrentState()` is `state2`, no longer `state1`, with `state1` left in the
previous-state field and `IsRunning()` still true.  On a new machine
`Start("state2")` returns the `StateIn` error, and afterwards
`GetCurrentState()` is `state2` where it was nil before, with `IsRunning()`
false. -/
theorem failed_StateIn_changes_current_state :
    IsRunning (Start "state1"
      (NewStateMachine (MockStateMachine none none true) enterFailsMap)).machine = true ∧
    GetCurrentState (Start "state1"
      (NewStateMachine (MockStateMachine none none true) enterFailsMap)).machine
      = some (MockState "state1" none none) ∧
    (ChangeState "state2" (Start "state1"
      (NewStateMachine (MockStateMachine none none true) enterFailsMap)).machine).err
      = some (.stateInFailed "state in failed") ∧
    GetCurrentState (ChangeState "state2" (Start "state1"
      (NewStateMachine (MockStateMachine none none true) enterFailsMap)).machine).machine
      = some (MockState "state2" (some "state in failed") none) ∧
    (ChangeState "state2" (Start "state1"
      (NewStateMachine (MockStateMachine none none true) enterFailsMap)).machine).machine.stateLast
      = some (MockState "state1" none none) ∧
    IsRunning (ChangeState "state2" (Start "state1"
      (NewStateMachine (MockStateMachine none none true) enterFailsMap)).machine).machine
      = true ∧
    GetCurrentState (NewStateMachine (MockStateMachine none none true) enterFailsMap)
      = none ∧
    (Start "state2" (NewStateMachine (MockStateMachine none none true) enterFailsMap)).err
      = some (.stateInFailed "state in failed") ∧
    GetCurrentState (Start "state2"
      (NewStateMachine (MockStateMachine none none true) enterFailsMap)).machine
      = some (MockState "state2" (some "state in failed") none) ∧
    IsRunning (Start "state2"
      (NewStateMachine (MockStateMachine none none true) enterFailsMap)).machine = false :=
  ⟨rfl, rfl, rfl, rfl, rfl, rfl, rfl, rfl, rfl, rfl⟩

/-! ### C9: `Start` when the first state fails to enter -/

/-- C9 (the code on this point). For a machine that is neither running nor
initializing, a first state present in the map, the guard's `InitData`
succeeding and the state's `StateIn` returning an error: `Start` returns that
error with `running` and `initing` both false, and the first state is recorded
as current, so `GetCurrentState()` returns it and not nil. -/
theorem Start_failed_StateIn_records_first_state (sm : StateMachine)
    (firstState : String) (state : State) (e : String)
    (hinit : sm.initing = false) (hrun : sm.running = false)
    (hmap : sm.stateMap.States.lookup firstState = some (some state))
    (hguard : sm.smi.InitData sm.log = none)
    (hin : state.StateIn (sm.log ++ [.initData]) = some e) :
    ∃ sm1, Start firstState sm = .returned sm1 (some (.stateInFailed e)) ∧
      sm1.running = false ∧ sm1.initing = false ∧
      GetCurrentState sm1 = some state ∧ GetCurrentState sm1 ≠ none := by
  refine ⟨{ sm with stateNow := some state,
                    log := sm.log ++ [.initData, .stateIn state.GetName] }, ?_, hrun, hinit,
          rfl, by simp [GetCurrentState]⟩
  simp [Start, StateMachine.emit, hinit, hrun, hmap, hguard, hin]

/-- Witness for C9: the `StateIn failed` case of `TestStateMachine_Start`. -/
theorem Start_failed_StateIn_records_first_state_witness :
    ∃ sm1, Start "state2" (NewStateMachine (MockStateMachine none none true) enterFailsMap)
        = .returned sm1 (some (.stateInFailed "state in failed")) ∧
      sm1.running = false ∧ sm1.initing = false ∧
      GetCurrentState sm1 = some (MockState "state2" (some "state in failed") none) ∧
      GetCurrentState sm1 ≠ none :=
  Start_failed_StateIn_records_first_state
    (NewStateMachine (MockStateMachine none none true) enterFailsMap) "state2"
    (MockState "state2" (some "state in failed") none) "state in failed"
    rfl rfl rfl rfl rfl

/-! ### C10: `ChangeState` when the current state fails to exit -/

/-- C10. For a running machine with current state `now`, a target present in
the map and the guard permitting the transition: if `StateOut` of `now` returns
an error then `ChangeState` returns that error, the only calls made are the
guard's check and that `StateOut` (no `StateIn`), `GetCurrentState()` is still
`now`, `IsRunning()` is true and the previous-state field is untouched. -/
theorem ChangeState_failed_StateOut_keeps_state (sm : StateMachine)
    (target : String) (now : State) (newState : Option State) (e : String)
    (hrun : sm.running = true) (hnow : sm.stateNow = some now)
    (hmap : sm.stateMap.States.lookup target = some newState)
    (hguard : sm.smi.CheckStateChange sm.log now newState = (true, none))
    (hout : now.StateOut
      (sm.log ++ [.checkStateChange now.GetName (newState.map State.GetName)]) = some e) :
    ∃ sm1, ChangeState target sm = .returned sm1 (some (.stateOutFailed e)) ∧
      sm1.log = sm.log ++ [.checkStateChange now.GetName (newState.map State.GetName),
                           .stateOut now.GetName] ∧
      (∀ n, Event.stateIn n ∉ sm1.log.drop sm.log.length) ∧
      GetCurrentState sm1 = some now ∧ GetCurrentState sm1 = GetCurrentState sm ∧
      IsRunning sm1 = true ∧ sm1.stateLast = sm.stateLast ∧ sm1.initing = sm.initing := by
  refine ⟨{ sm with log := sm.log ++ [.checkStateChange now.GetName
              (newState.map State.GetName), .stateOut now.GetName] }, ?_, rfl, ?_, hnow,
          rfl, hrun, rfl, rfl⟩
  · simp [ChangeState, doChangeState, StateMachine.emit, hrun, hnow, hmap, hguard, hout]
  · intro n
    simp

/-- Witness for C10: the `StateOut failed` case of `TestStateMachine_ChangeState`. -/
theorem ChangeState_failed_StateOut_keeps_state_witness :
    (ChangeState "state2" (Start "state1"
      (NewStateMachine (MockStateMachine none none true) exitFailsMap)).machine).err
      = some (.stateOutFailed "state out failed") ∧
    GetCurrentState (ChangeState "state2" (Start "state1"
      (NewStateMachine (MockStateMachine none none true) exitFailsMap)).machine).machine
      = some (MockState "state1" none (some "state out failed")) := by
  obtain ⟨sm1, h, _, _, hcur, _⟩ := ChangeState_failed_StateOut_keeps_state
    (Start "state1" (NewStateMachine (MockStateMachine none none true) exitFailsMap)).machine
    "state2" (MockState "state1" none (some "state out failed"))
    (some (MockState "state2" none none)) "state out failed" rfl rfl rfl rfl rfl
  rw [h]
  exact ⟨rfl, hcur⟩

/-- The part of C8 that the code satisfies, for `Start`: a call that returns
an error other than a `StateIn` failure leaves the current state, `running`,
`initing` and the previous-state field as they were. -/
theorem Start_error_keeps_state (firstState : String) (sm sm1 : StateMachine) (e : Error)
    (h : Start firstState sm = .returned sm1 (some e)) (hne : ∀ c, e ≠ .stateInFailed c) :
    GetCurrentState sm1 = GetCurrentState sm ∧ IsRunning sm1 = IsRunning sm ∧
    sm1.initing = sm.initing ∧ sm1.stateLast = sm.stateLast := by
  unfold Start at h
  split at h
  · simp only [Outcome.returned.injEq] at h
    obtain ⟨rfl, _⟩ := h
    exact ⟨rfl, rfl, rfl, rfl⟩
  · rename_i hstart
    simp only [Bool.or_eq_true, not_or, Bool.not_eq_true] at hstart
    split at h
    · simp only [Outcome.returned.injEq] at h
      obtain ⟨rfl, _⟩ := h
      exact ⟨rfl, rfl, rfl, rfl⟩
    · simp only [StateMachine.emit] at h
      split at h
      · simp only [Outcome.returned.injEq] at h
        obtain ⟨rfl, _⟩ := h
        exact ⟨rfl, rfl, hstart.1.symm, rfl⟩
      · split at h
        · simp at h
        · split at h
          · simp only [Outcome.returned.injEq, Option.some.injEq] at h
            exact absurd h.2.symm (hne _)
          · simp at h

/-- The part of C8 that the code satisfies, for `ChangeState`: a call that
returns an error other than a `StateIn` failure leaves the current state,
`running`, `initing` and the previous-state field as they were. -/
theorem ChangeState_error_keeps_state (stateName : String) (sm sm1 : StateMachine)
    (e : Error) (h : ChangeState stateName sm = .returned sm1 (some e))
    (hne : ∀ c, e ≠ .stateInFailed c) :
    GetCurrentState sm1 = GetCurrentState sm ∧ IsRunning sm1 = IsRunning sm ∧
    sm1.initing = sm.initing ∧ sm1.stateLast = sm.stateLast := by
  unfold ChangeState at h
  split at h
  · simp only [Outcome.returned.injEq] at h
    obtain ⟨rfl, _⟩ := h
    exact ⟨rfl, rfl, rfl, rfl⟩
  · split at h
    · simp only [Outcome.returned.injEq] at h
      obtain ⟨rfl, _⟩ := h
      exact ⟨rfl, rfl, rfl, rfl⟩
    · unfold doChangeState at h
      split at h
      · simp only [Outcome.returned.injEq] at h
        obtain ⟨rfl, _⟩ := h
        exact ⟨rfl, rfl, rfl, rfl⟩
      · simp only [StateMachine.emit] at h
        split at h
        · simp only [Outcome.returned.injEq] at h
          obtain ⟨rfl, _⟩ := h
          exact ⟨rfl, rfl, rfl, rfl⟩
        · split at h
          · simp only [Outcome.returned.injEq] at h
            obtain ⟨rfl, _⟩ := h
            exact ⟨rfl, rfl, rfl, rfl⟩
          · split at h
            · simp only [Outcome.returned.injEq] at h
              obtain ⟨rfl, _⟩ := h
              exact ⟨rfl, rfl, rfl, rfl⟩
            · split at h
              · simp at h
              · split at h
                · simp only [Outcome.returned.injEq, Option.some.injEq] at h
                  exact absurd h.2.symm (hne _)
                · simp at h

end statemachine

namespace statemachine

/-! ### C11: the guard refuses or fails -/

/-- C11. For a running machine and a target present in the map, if the
guard's `CheckStateChange`, asked about the current state and the target,
returns an error or returns false, then `ChangeState` returns an error (the
check's error, or "not allowed"; "current state is undefined" when there is no
current state to ask about), no `StateOut` and no `StateIn` is invoked,
`GetCurrentState()` is unchanged and `IsRunning()` is true. -/
theorem ChangeState_refused_by_guard (sm : StateMachine) (target : String)
    (newState : Option State) (hrun : sm.running = true)
    (hmap : sm.stateMap.States.lookup target = some newState)
    (hguard : ∀ now, sm.stateNow = some now →
      (sm.smi.CheckStateChange sm.log now newState).2 ≠ none ∨
      (sm.smi.CheckStateChange sm.log now newState).1 = false) :
    ∃ sm1 e, ChangeState target sm = .returned sm1 (some e) ∧
      ((∃ c, e = .checkFailed c) ∨ (∃ a, e = .notAllowed a target) ∨
        e = .currentUndefined) ∧
      (∀ n, Event.stateOut n ∉ sm1.log.drop sm.log.length ∧
        Event.stateIn n ∉ sm1.log.drop sm.log.length) ∧
      GetCurrentState sm1 = GetCurrentState sm ∧ IsRunning sm1 = true ∧
      sm1.stateLast = sm.stateLast ∧ sm1.initing = sm.initing := by
  cases hnow : sm.stateNow with
  | none =>
    refine ⟨sm, .currentUndefined, ?_, Or.inr (Or.inr rfl), ?_, rfl, hrun, rfl, rfl⟩
    · simp [ChangeState, doChangeState, hrun, hmap, hnow]
    · intro n; simp
  | some now =>
    have hg := hguard now hnow
    cases hr : sm.smi.CheckStateChange sm.log now newState with
    | mk allowed err =>
      rw [hr] at hg
      cases err with
      | some c =>
        refine ⟨sm.emit (.checkStateChange now.GetName (newState.map State.GetName)),
          .checkFailed c, ?_, Or.inl ⟨c, rfl⟩, ?_, rfl, hrun, rfl, rfl⟩
        · simp [ChangeState, doChangeState, StateMachine.emit, hrun, hmap, hnow, hr]
        · intro n; simp [StateMachine.emit]
      | none =>
        have ha : allowed = false := by simpa using hg
        subst ha
        refine ⟨sm.emit (.checkStateChange now.GetName (newState.map State.GetName)),
          .notAllowed now.GetName target, ?_, Or.inr (Or.inl ⟨_, rfl⟩), ?_, rfl, hrun,
          rfl, rfl⟩
        · simp [ChangeState, doChangeState, StateMachine.emit, hrun, hmap, hnow, hr]
        · intro n; simp [StateMachine.emit]

/-- Witness for C11: the `State change not allowed` case of
`TestStateMachine_ChangeState`. -/
theorem ChangeState_refused_by_guard_witness :
    ∃ sm1 e, ChangeState "play"
        (Start "menu" (NewStateMachine (MockStateMachine none none false) gameMap)).machine
        = .returned sm1 (some e) ∧
      GetCurrentState sm1 = some (MockState "menu" none none) ∧ IsRunning sm1 = true := by
  obtain ⟨sm1, e, h, _, _, hcur, hrun, _⟩ := ChangeState_refused_by_guard
    (Start "menu" (NewStateMachine (MockStateMachine none none false) gameMap)).machine
    "play" (some (MockState "play" none none)) rfl rfl (fun _ _ => Or.inr rfl)
  exact ⟨sm1, e, h, hcur, hrun⟩

/-! ### C12: a workflow in which nothing fails -/

theorem ChangeState_succeeds (sm : StateMachine) (stateName : String) (now entered : State)
    (hrun : sm.running = true) (hnow : sm.stateNow = some now)
    (hmap : sm.stateMap.States.lookup stateName = some (some entered))
    (hguard : ∀ h a b, sm.smi.CheckStateChange h a b = (true, none))
    (hout : ∀ h, now.StateOut h = none) (hin : ∀ h, entered.StateIn h = none) :
    ChangeState stateName sm = .returned
      { sm with stateNow := some entered, stateLast := none,
                log := sm.log ++ [.checkStateChange now.GetName (some entered.GetName),
                                  .stateOut now.GetName, .stateIn entered.GetName] } none := by
  simp [ChangeState, doChangeState, StateMachine.emit, hrun, hnow, hmap, hguard, hout, hin]

theorem ChangeStates_succeed (smi : StateMachineInterface) (map : StateMap)
    (hguard : ∀ h a b, smi.CheckStateChange h a b = (true, none))
    (hstates : ∀ k v, map.States.lookup k = some v →
      ∃ s, v = some s ∧ (∀ h, s.StateIn h = none) ∧ (∀ h, s.StateOut h = none))
    (ns : List String) :
    ∀ (sm : StateMachine) (cur : String), sm.smi = smi → sm.stateMap = map →
      sm.running = true → sm.stateLast = none → map.States.lookup cur = some sm.stateNow →
      (∀ n ∈ ns, (map.States.lookup n).isSome = true) →
      ∃ sm1, ChangeStates ns sm = .returned sm1 none ∧
        map.States.lookup ((cur :: ns).getLast (List.cons_ne_nil _ _))
          = some (GetCurrentState sm1) ∧
        sm1.stateLast = none ∧ IsRunning sm1 = true := by
  induction ns with
  | nil =>
    intro sm cur _ _ hrun hlast hcur _
    exact ⟨sm, rfl, by simpa [GetCurrentState] using hcur, hlast, hrun⟩
  | cons n ns ih =>
    intro sm cur hsmi hm hrun hlast hcur hkeys
    obtain ⟨now, hnow, _, hout⟩ := hstates cur _ hcur
    obtain ⟨v, hv⟩ := Option.isSome_iff_exists.mp (hkeys n (List.mem_cons_self _ _))
    obtain ⟨entered, rfl, hin, _⟩ := hstates n v hv
    have hstep := ChangeState_succeeds sm n now entered hrun hnow (by rw [hm]; exact hv)
      (by rw [hsmi]; exact hguard) hout hin
    obtain ⟨sm1, h1, hres⟩ := ih
      { sm with stateNow := some entered, stateLast := none,
                log := sm.log ++ [.checkStateChange now.GetName (some entered.GetName),
                                  .stateOut now.GetName, .stateIn entered.GetName] }
      n hsmi hm hrun rfl hv (fun k hk => hkeys k (List.mem_cons_of_mem _ hk))
    refine ⟨sm1, ?_, ?_⟩
    · simp only [ChangeStates, hstep]
      exact h1
    · simpa using hres

/-- C12. For a state map all of whose states are present (not nil) and have
`StateIn` and `StateOut` that always succeed, and a guard whose `InitData`
succeeds and whose `CheckStateChange` always permits: on a new machine
`Start(n0)` followed by `ChangeState(n1)`, ..., `ChangeState(nk)` with every
name a key of the map returns no error at any call, and afterwards
`GetCurrentState()` is the state the map holds for the last name given, the
previous-state field is empty and `IsRunning()` is true.  As `k` is arbitrary,
this holds after each call of the sequence. -/
theorem workflow_without_failures (smi : StateMachineInterface) (map : StateMap)
    (n0 : String) (ns : List String)
    (hinit : ∀ h, smi.InitData h = none)
    (hguard : ∀ h a b, smi.CheckStateChange h a b = (true, none))
    (hstates : ∀ k v, map.States.lookup k = some v →
      ∃ s, v = some s ∧ (∀ h, s.StateIn h = none) ∧ (∀ h, s.StateOut h = none))
    (hkeys : ∀ n ∈ n0 :: ns, (map.States.lookup n).isSome = true) :
    ∃ sm0 sm1, Start n0 (NewStateMachine smi map) = .returned sm0 none ∧
      map.States.lookup n0 = some (GetCurrentState sm0) ∧
      sm0.stateLast = none ∧ IsRunning sm0 = true ∧
      ChangeStates ns sm0 = .returned sm1 none ∧
      map.States.lookup ((n0 :: ns).getLast (List.cons_ne_nil _ _))
        = some (GetCurrentState sm1) ∧
      sm1.stateLast = none ∧ IsRunning sm1 = true := by
  obtain ⟨v, hv⟩ := Option.isSome_iff_exists.mp (hkeys n0 (List.mem_cons_self _ _))
  obtain ⟨s, rfl, hin, _⟩ := hstates n0 v hv
  have hstart : Start n0 (NewStateMachine smi map) = .returned
      { smi := smi, stateMap := map, initing := false, running := true,
        stateNow := some s, stateLast := none,
        log := [.initData, .stateIn s.GetName] } none := by
    simp [Start, NewStateMachine, StateMachine.emit, hv, hinit, hin]
  obtain ⟨sm1, h1, hres⟩ := ChangeStates_succeed smi map hguard hstates ns
    { smi := smi, stateMap := map, initing := false, running := true,
      stateNow := some s, stateLast := none,
      log := [.initData, .stateIn s.GetName] } n0 rfl rfl rfl rfl
    hv (fun k hk => hkeys k (List.mem_cons_of_mem _ hk))
  exact ⟨_, sm1, hstart, hv, rfl, rfl, h1, hres⟩

/-- Witness for C12: the end-to-end example `menu`, `play`, `pause`. -/
theorem workflow_without_failures_witness :
    ∃ sm0 sm1, Start "menu" (NewStateMachine (MockStateMachine none none true) gameMap)
        = .returned sm0 none ∧
      ChangeStates ["play", "pause"] sm0 = .returned sm1 none ∧
      GetCurrentState sm1 = some (MockState "pause" none none) ∧
      sm1.stateLast = none ∧ IsRunning sm1 = true := by
  obtain ⟨sm0, sm1, h0, _, _, _, h1, hcur, hlast, hrun⟩ := workflow_without_failures
    (MockStateMachine none none true) gameMap "menu" ["play", "pause"]
    (fun _ => rfl) (fun _ _ _ => rfl)
    (by
      intro k v hkv
      simp only [gameMap, List.lookup] at hkv
      split at hkv
      · exact ⟨_, (Option.some.inj hkv).symm, fun _ => rfl, fun _ => rfl⟩
      · split at hkv
        · exact ⟨_, (Option.some.inj hkv).symm, fun _ => rfl, fun _ => rfl⟩
        · split at hkv
          · exact ⟨_, (Option.some.inj hkv).symm, fun _ => rfl, fun _ => rfl⟩
          · exact absurd hkv (by simp))
    (by decide)
  refine ⟨sm0, sm1, h0, h1, ?_, hlast, hrun⟩
  have h2 : gameMap.States.lookup "pause" = some (GetCurrentState sm1) := hcur
  exact (Option.some.inj h2).symm

/-! ### C13 to C16: calls rejected before any callback -/

theorem Start_success_is_running (firstState : String) (sm sm1 : StateMachine)
    (h : Start firstState sm = .returned sm1 none) : sm1.running = true := by
  unfold Start at h
  split at h
  · simp at h
  · split at h
    · simp at h
    · simp only [StateMachine.emit] at h
      split at h
      · simp at h
      · split at h
        · simp at h
        · split at h
          · simp at h
          · simp only [Outcome.returned.injEq, and_true] at h
            rw [← h]

theorem Start_failure_keeps_running (firstState : String) (sm sm1 : StateMachine)
    (e : Error) (h : Start firstState sm = .returned sm1 (some e)) :
    sm1.running = sm.running := by
  unfold Start at h
  split at h
  · simp only [Outcome.returned.injEq] at h
    rw [← h.1]
  · split at h
    · simp only [Outcome.returned.injEq] at h
      rw [← h.1]
    · simp only [StateMachine.emit] at h
      split at h
      · simp only [Outcome.returned.injEq] at h
        rw [← h.1]
      · split at h
        · simp at h
        · split at h
          · simp only [Outcome.returned.injEq] at h
            rw [← h.1]
          · simp at h

/-- C13. On a machine that is running or initializing, `Start(name)` returns
the "already started" error for every `name` and leaves the machine exactly as
it was: no call is made to `InitData` or to any `StateIn` (the log is
unchanged) and the current state, `running` and `initing` are unchanged.  In
particular a `Start` that follows a successful `Start` fails and leaves the
state the first one established. -/
theorem Start_twice_rejected (sm : StateMachine) (name : String)
    (h : sm.running = true ∨ sm.initing = true) :
    Start name sm = .returned sm (some .alreadyStarted) ∧
    (∀ (first : String) (sm0 sm1 : StateMachine),
      Start first sm0 = .returned sm1 none →
      Start name sm1 = .returned sm1 (some .alreadyStarted)) := by
  have key : ∀ s : StateMachine, (s.running = true ∨ s.initing = true) →
      Start name s = .returned s (some .alreadyStarted) := by
    intro s hs
    rcases hs with hs | hs <;> simp [Start, hs]
  exact ⟨key sm h, fun first sm0 sm1 h1 =>
    key sm1 (Or.inl (Start_success_is_running first sm0 sm1 h1))⟩

/-- Witness for C13: the `Duplicate start` case of `TestStateMachine_Start`. -/
theorem Start_twice_rejected_witness :
    Start "state1" (Start "state1"
      (NewStateMachine (MockStateMachine none none true) exitFailsMap)).machine
      = .returned (Start "state1"
          (NewStateMachine (MockStateMachine none none true) exitFailsMap)).machine
        (some .alreadyStarted) :=
  (Start_twice_rejected (Start "state1"
      (NewStateMachine (MockStateMachine none none true) exitFailsMap)).machine
    "state1" (Or.inl rfl)).1

/-- C14. On a machine that is neither running nor initializing, for a first
state present in the map, if the guard's `InitData` returns an error then
`Start` returns that error, the only call made is `InitData` (no `StateIn`),
and the machine is as before: `running` and `initing` false, current state and
previous-state field unchanged, so `GetCurrentState()` is nil if it was nil; a
later `Start` is not rejected as already started. -/
theorem Start_failed_InitData_leaves_machine (sm : StateMachine) (firstState : String)
    (state : Option State) (e : String)
    (hinit : sm.initing = false) (hrun : sm.running = false)
    (hmap : sm.stateMap.States.lookup firstState = some state)
    (hguard : sm.smi.InitData sm.log = some e) :
    ∃ sm1, Start firstState sm = .returned sm1 (some (.initDataFailed e)) ∧
      sm1.log = sm.log ++ [.initData] ∧
      sm1.running = false ∧ sm1.initing = false ∧
      GetCurrentState sm1 = GetCurrentState sm ∧
      (GetCurrentState sm = none → GetCurrentState sm1 = none) ∧
      sm1.stateLast = sm.stateLast ∧
      (∀ name, (Start name sm1).err ≠ some .alreadyStarted) := by
  refine ⟨{ sm with log := sm.log ++ [.initData] }, ?_, rfl, hrun, hinit, rfl,
    fun h => h, rfl, ?_⟩
  · simp [Start, StateMachine.emit, hinit, hrun, hmap, hguard]
  · intro name
    unfold Start
    simp only [hinit, hrun, Bool.or_self, Bool.false_eq_true, if_false]
    split
    · simp [Outcome.err]
    · simp only [StateMachine.emit]
      split
      · simp [Outcome.err]
      · split
        · simp [Outcome.err]
        · split <;> simp [Outcome.err]

/-- Witness for C14: the `Init failed` case of `TestStateMachine_Start`. -/
theorem Start_failed_InitData_leaves_machine_witness :
    ∃ sm1, Start "state1"
        (NewStateMachine (MockStateMachine (some "init failed") none true) exitFailsMap)
        = .returned sm1 (some (.initDataFailed "init failed")) ∧
      sm1.log = [.initData] ∧ sm1.running = false ∧ sm1.initing = false ∧
      GetCurrentState sm1 = none := by
  obtain ⟨sm1, h, hlog, hrun, hinit, hcur, _⟩ := Start_failed_InitData_leaves_machine
    (NewStateMachine (MockStateMachine (some "init failed") none true) exitFailsMap)
    "state1" (some (MockState "state1" none (some "state out failed"))) "init failed"
    rfl rfl rfl rfl
  exact ⟨sm1, h, hlog, hrun, hinit, hcur⟩

/-- C15. On a machine that is neither running nor initializing, `Start(name)`
for a name that is not a key of the map returns the "state not found" error
and leaves the machine exactly as it was: no call to `InitData` or to any
state (the log is unchanged), `running` and `initing` false and the current
state unchanged, so nil if it was nil. -/
theorem Start_unknown_state_rejected (sm : StateMachine) (name : String)
    (hinit : sm.initing = false) (hrun : sm.running = false)
    (hmap : sm.stateMap.States.lookup name = none) :
    Start name sm = .returned sm (some (.stateNotFound name)) ∧
    (Start name sm).machine.log = sm.log ∧
    (Start name sm).machine.running = false ∧
    (Start name sm).machine.initing = false ∧
    GetCurrentState (Start name sm).machine = GetCurrentState sm := by
  have h : Start name sm = .returned sm (some (.stateNotFound name)) := by
    simp [Start, hinit, hrun, hmap]
  rw [h]
  exact ⟨rfl, rfl, hrun, hinit, rfl⟩

/-- Witness for C15: the `State not found` case of `TestStateMachine_Start`. -/
theorem Start_unknown_state_rejected_witness :
    Start "nonexistent" (NewStateMachine (MockStateMachine none none true) exitFailsMap)
      = .returned (NewStateMachine (MockStateMachine none none true) exitFailsMap)
          (some (.stateNotFound "nonexistent")) ∧
    GetCurrentState (Start "nonexistent"
      (NewStateMachine (MockStateMachine none none true) exitFailsMap)).machine = none :=
  ⟨(Start_unknown_state_rejected
      (NewStateMachine (MockStateMachine none none true) exitFailsMap) "nonexistent"
      rfl rfl rfl).1, rfl⟩

/-- C16. `ChangeState(target)` on a machine that is not running returns the
"not running" error, whether or not `target` is a key of the map; on a running
machine with `target` not a key of the map it returns the "state not found"
error.  In both cases the machine returned is exactly the machine given: no
field changes and no call is made to the guard or to any state.  A machine
whose `Start` failed is not running, so it is in the first case. -/
theorem ChangeState_rejected_before_guard :
    (∀ (sm : StateMachine) (target : String), sm.running = false →
      ChangeState target sm = .returned sm (some .notRunning)) ∧
    (∀ (sm : StateMachine) (target : String), sm.running = true →
      sm.stateMap.States.lookup target = none →
      ChangeState target sm = .returned sm (some (.stateNotFound target))) ∧
    (∀ (sm sm1 : StateMachine) (first target : String) (e : Error),
      sm.running = false → Start first sm = .returned sm1 (some e) →
      ChangeState target sm1 = .returned sm1 (some .notRunning)) := by
  have key : ∀ (sm : StateMachine) (target : String), sm.running = false →
      ChangeState target sm = .returned sm (some .notRunning) := by
    intro sm target h
    simp [ChangeState, h]
  refine ⟨key, ?_, ?_⟩
  · intro sm target hrun hmap
    simp [ChangeState, hrun, hmap]
  · intro sm sm1 first target e hrun h
    exact key sm1 target ((Start_failure_keeps_running first sm sm1 e h).trans hrun)

/-- Witness for C16: a machine never started, a machine whose `Start` failed,
and the `Target state not found` case of `TestStateMachine_ChangeState`. -/
theorem ChangeState_rejected_before_guard_witness :
    (ChangeState "nonexistent"
      (NewStateMachine (MockStateMachine none none true) gameMap)).err
      = some .notRunning ∧
    (ChangeState "state1" (Start "state2"
      (NewStateMachine (MockStateMachine none none true) enterFailsMap)).machine).err
      = some .notRunning ∧
    (ChangeState "nonexistent" (Start "menu"
      (NewStateMachine (MockStateMachine none none true) gameMap)).machine).err
      = some (.stateNotFound "nonexistent") := by
  refine ⟨?_, ?_, ?_⟩
  · exact congrArg Outcome.err (ChangeState_rejected_before_guard.1
      (NewStateMachine (MockStateMachine none none true) gameMap) "nonexistent" rfl)
  · exact congrArg Outcome.err (ChangeState_rejected_before_guard.2.2
      (NewStateMachine (MockStateMachine none none true) enterFailsMap)
      (Start "state2" (NewStateMachine (MockStateMachine none none true) enterFailsMap)).machine
      "state2" "state1" (.stateInFailed "state in failed") rfl rfl)
  · exact congrArg Outcome.err (ChangeState_rejected_before_guard.2.1
      (Start "menu" (NewStateMachine (MockStateMachine none none true) gameMap)).machine
      "nonexistent" rfl rfl)

end statemachine

namespace mission

/-! ### C17: a sequencer that is not running processes nothing -/

/-- C17. On a sequencer with `running == false`, whatever its queue holds, a
polling pass returns at once: it invokes no `Dispose`, leaves the current
step, `running`, the busy flag `stepRunning` and the queue unchanged, and
schedules no further pass.  `GoNext` on such a sequencer invokes no `Dispose`
and changes neither `running` nor the current step.  So after any sequence of
`GoNext` calls and polling passes no queued request has been processed. -/
theorem stopped_sequencer_processes_nothing (m : Mission) (h : m.running = false) :
    (∃ m1, tick m = .done m1 ∧ m1.disposed = m.disposed ∧ m1.stepNow = m.stepNow ∧
      m1.running = false ∧ m1.stepRunning = m.stepRunning ∧ m1.taskList = m.taskList ∧
      newEvents m (tick m) = [.lock, .unlock]) ∧
    (∃ m2, GoNext m = .done m2 ∧ m2.disposed = m.disposed ∧ m2.stepNow = m.stepNow ∧
      m2.running = false ∧ m2.stepRunning = m.stepRunning) ∧
    (∀ sched : List Call, ∃ m3, run sched m = .done m3 ∧ m3.disposed = m.disposed ∧
      m3.stepNow = m.stepNow ∧ m3.running = false ∧ m3.stepRunning = m.stepRunning) := by
  have htick : ∀ m : Mission, m.running = false →
      tick m = .done ((m.emit .lock).emit .unlock) := by
    intro m h
    simp [tick, Mission.emit, h]
  refine ⟨⟨_, htick m h, by simp, rfl, h, rfl, rfl, ?_⟩,
    ⟨_, rfl, by simp [Mission.disposed, Mission.emit, disposedOf_append, disposedOf],
      rfl, h, rfl⟩, ?_⟩
  · rw [htick m h]
    simp [newEvents, Outcome.state, Mission.emit]
  · intro sched
    induction sched generalizing m with
    | nil => exact ⟨m, rfl, rfl, rfl, h, rfl⟩
    | cons c cs ih =>
      cases c with
      | goNext =>
        obtain ⟨m3, h3, hd, hn, hr, hs⟩ := ih
          (({ m with taskList := m.taskList ++ ["next"] }).emit .lock |>.emit .unlock) h
        refine ⟨m3, ?_, ?_, hn, hr, hs⟩
        · simpa [run, call, GoNext, Outcome.bind, Mission.emit] using h3
        · simpa [Mission.disposed, Mission.emit, disposedOf_append, disposedOf] using hd
      | tick =>
        obtain ⟨m3, h3, hd, hn, hr, hs⟩ := ih ((m.emit .lock).emit .unlock) h
        refine ⟨m3, ?_, ?_, hn, hr, hs⟩
        · simpa [run, call, htick m h, Outcome.bind] using h3
        · simpa using hd

/-- Witness for C17: a sequencer that has finished its two steps, with a
further advance request queued. -/
theorem stopped_sequencer_processes_nothing_witness :
    (run [.goNext, .tick, .goNext, .tick] (Start (NewMission [step1, step2])).state).state.running
      = false ∧
    ∃ m3, run [.goNext, .tick, .tick]
        (run [.goNext, .tick, .goNext, .tick] (Start (NewMission [step1, step2])).state).state
        = .done m3 ∧
      m3.disposed = [step1, step2] ∧ m3.stepNow = some step2 ∧ m3.running = false := by
  obtain ⟨m3, h3, hd, hn, hr, _⟩ := (stopped_sequencer_processes_nothing
    (run [.goNext, .tick, .goNext, .tick] (Start (NewMission [step1, step2])).state).state
    (by decide)).2.2 [.goNext, .tick, .tick]
  exact ⟨by decide, m3, h3, hd, hn, hr⟩

/-! ### C19: at most one jump request is queued -/

theorem tick_taskList (m : Mission) :
    (tick m).state.taskList = m.taskList ∨ (tick m).state.taskList = m.taskList.tail := by
  obtain ⟨sl, sn, r, sr, tl, lg⟩ := m
  cases r with
  | false => left; simp [tick, Mission.emit, Outcome.state]
  | true =>
    cases sr with
    | true => left; simp [tick, Mission.emit, Outcome.state]
    | false =>
      cases tl with
      | nil => left; simp [tick, Mission.emit, Outcome.state]
      | cons t rest =>
        right
        by_cases ht : t = "next"
        · simp only [tick, Mission.emit, ht]
          simp only [Bool.not_true, Bool.false_eq_true, if_false, if_true]
          cases hl : nextLoop sl false _ with
          | none => rfl
          | some p =>
            obtain ⟨m1, n⟩ := p
            have hf := (nextLoop_frame _ _ _ _ _ hl).1
            cases n <;> simpa [Outcome.state] using hf
        · simp only [tick, Mission.emit, ht]
          simp only [Bool.not_true, Bool.false_eq_true, if_false]
          simpa [Outcome.state] using (jumpLoop_frame t sl _).1

theorem atMostOneJump_tail (l : List String) (h : AtMostOneJump l) :
    AtMostOneJump l.tail := by
  unfold AtMostOneJump at *
  exact le_trans ((List.tail_sublist l).filter _).length_le h

theorem filter_jump_eq_nil_of_all_next (l : List String) (h : ∀ t ∈ l, t = "next") :
    l.filter (fun task => task ≠ "next") = [] := by
  rw [List.filter_eq_nil_iff]
  intro t ht
  simp [h t ht]

/-- C19. A new sequencer has an empty queue, and if the queue holds at most
one request that is not `"next"` before a call of `Start`, `GoNext`, `Jump`
(for any name) or `tick`, it does so in the state the call leaves, whether the
call returns or panics, for every step list. -/
theorem at_most_one_jump_queued (m : Mission) (h : AtMostOneJump m.taskList) :
    (∀ steps : List StepDisposer, AtMostOneJump (NewMission steps).taskList) ∧
    AtMostOneJump (Start m).state.taskList ∧
    AtMostOneJump (GoNext m).state.taskList ∧
    (∀ name : String, AtMostOneJump (Jump name m).state.taskList) ∧
    AtMostOneJump (tick m).state.taskList := by
  refine ⟨?_, ?_, ?_, ?_, ?_⟩
  · intro steps
    simp [AtMostOneJump, NewMission]
  · have : (Start m).state.taskList = m.taskList := by
      simp only [Start, Mission.emit]
      split
      · rfl
      · split <;> rfl
    rw [this]
    exact h
  · unfold AtMostOneJump at *
    simpa [GoNext, Mission.emit, Outcome.state, List.filter_append] using h
  · intro name
    cases hj : hasJumpTask m.taskList with
    | true =>
      have : (Jump name m).state.taskList = m.taskList := by
        simp [Jump, Mission.emit, hj, Outcome.state]
      rw [this]
      exact h
    | false =>
      have hall := (hasJumpTask_eq_false_iff _).mp hj
      have hnil := filter_jump_eq_nil_of_all_next _ hall
      by_cases hn : name ∈ names m.stepList
      · have : (Jump name m).state.taskList = m.taskList ++ [name] := by
          simp [Jump, Mission.emit, hj, Outcome.state, jumpExists_of_mem _ _ _ hn]
        rw [this]
        unfold AtMostOneJump
        rw [List.filter_append, hnil]
        by_cases hnext : name = "next" <;> simp [List.filter, hnext]
      · have : (Jump name m).state.taskList = m.taskList := by
          simp [Jump, Mission.emit, hj, Outcome.state, jumpExists_of_not_mem _ _ _ hn]
        rw [this]
        exact h
  · rcases tick_taskList m with ht | ht <;> rw [ht]
    · exact h
    · exact atMostOneJump_tail _ h

/-- Witness for C19: a queue holding an advance request and a jump request. -/
theorem at_most_one_jump_queued_witness :
    AtMostOneJump (tick (run [.goNext]
      ((Start (NewMission [step1, step2, step3])).bind (Jump "step3")).state).state).state.taskList :=
  (at_most_one_jump_queued
    (run [.goNext] ((Start (NewMission [step1, step2, step3])).bind (Jump "step3")).state).state
    (by decide)).2.2.2.2

/-! ### C20: when `running` changes -/

theorem nextLoop_isSome (l : List StepDisposer) (b : Bool) (m : Mission) (cur : StepDisposer)
    (hnow : m.stepNow = some cur) : ∃ r, nextLoop l b m = some r := by
  induction l generalizing b with
  | nil => exact ⟨_, rfl⟩
  | cons it rest ih =>
    cases b with
    | true => simp [nextLoop]
    | false =>
      by_cases he : it.StepName = cur.StepName
      · simpa [nextLoop, hnow, he] using ih true
      · simpa [nextLoop, hnow, he] using ih false

theorem nextLoop_none_now (l : List StepDisposer) (m m1 : Mission) (n : Bool)
    (hnow : m.stepNow = none) (h : nextLoop l false m = some (m1, n)) : n = false := by
  cases l with
  | nil =>
    simp only [nextLoop, Option.some.injEq, Prod.mk.injEq] at h
    exact h.2.symm
  | cons it rest => simp [nextLoop, hnow] at h

theorem nextLoop_finish_imp (l : List StepDisposer) (m m1 : Mission) (cur : StepDisposer)
    (hnow : m.stepNow = some cur) (h : nextLoop l false m = some (m1, true)) :
    ∃ pre c, l = pre ++ [c] ∧ c.StepName = cur.StepName := by
  induction l with
  | nil => simp [nextLoop] at h
  | cons it rest ih =>
    by_cases he : it.StepName = cur.StepName
    · simp only [nextLoop, hnow, he, Bool.false_eq_true, if_false, if_true] at h
      cases rest with
      | nil => exact ⟨[], it, rfl, he⟩
      | cons s rest => simp [nextLoop] at h
    · simp only [nextLoop, hnow, he, Bool.false_eq_true, if_false] at h
      obtain ⟨pre, c, hl, hc⟩ := ih h
      exact ⟨it :: pre, c, by simp [hl], hc⟩

theorem nextLoop_finish_of_last (pre : List StepDisposer) (c cur : StepDisposer) (m : Mission)
    (hnow : m.stepNow = some cur) (hnd : (names (pre ++ [c])).Nodup)
    (hc : c.StepName = cur.StepName) :
    nextLoop (pre ++ [c]) false m = some (m, true) := by
  have hpre := (name_not_mem_of_nodup pre c [] hnd).1
  rw [nextLoop_skip pre c cur [] m hnow hc (fun s hs => hc ▸ hpre s hs), nextLoop_true]

theorem tick_stops_iff (m : Mission) (hnd : (names m.stepList).Nodup)
    (hrun : m.running = true) :
    (tick m).state.running = false ↔
      (m.stepRunning = false ∧ m.taskList.head? = some "next" ∧
        ∃ cur last, m.stepNow = some cur ∧ m.stepList.getLast? = some last ∧
          last.StepName = cur.StepName) := by
  obtain ⟨sl, sn, r, sr, tl, lg⟩ := m
  simp only at hnd hrun
  subst hrun
  cases sr with
  | true => simp [tick, Mission.emit, Outcome.state]
  | false =>
    cases tl with
    | nil => simp [tick, Mission.emit, Outcome.state]
    | cons t rest =>
      by_cases ht : t = "next"
      · subst ht
        simp only [tick, Mission.emit]
        simp only [Bool.not_true, Bool.false_eq_true, if_false, if_true, List.head?_cons,
          true_and]
        cases hl : nextLoop sl false _ with
        | none =>
          cases sn with
          | none => simp [Outcome.state]
          | some cur =>
            obtain ⟨r, hr⟩ := nextLoop_isSome sl false
              { stepList := sl, stepNow := some cur, running := true, stepRunning := true,
                taskList := rest, log := lg ++ [.lock] } cur rfl
            rw [hr] at hl
            exact absurd hl (by simp)
        | some p =>
          obtain ⟨m1, n⟩ := p
          obtain ⟨_, hr1, _, _, _⟩ := nextLoop_frame _ _ _ _ _ hl
          simp only at hr1
          cases sn with
          | none =>
            have hn := nextLoop_none_now _ _ _ _ rfl hl
            subst hn
            simp [Outcome.state, Mission.emit, hr1]
          | some cur =>
            cases n with
            | true =>
              obtain ⟨pre, c, hsl, hc⟩ := nextLoop_finish_imp _ _ _ cur rfl hl
              simp only [Outcome.state, if_true, true_iff]
              exact ⟨cur, c, rfl, by simp [hsl], hc⟩
            | false =>
              simp only [Outcome.state, Mission.emit, Bool.false_eq_true, if_false, hr1,
                Bool.true_eq_false, false_iff]
              rintro ⟨cur1, last, hcur, hlast, hname⟩
              simp only [Option.some.injEq] at hcur
              subst hcur
              obtain ⟨pre, hpre⟩ : ∃ pre, sl = pre ++ [last] := by
                rcases List.eq_nil_or_concat sl with h0 | ⟨pre, x, hx⟩
                · simp [h0] at hlast
                · rw [hx, List.concat_eq_append, List.getLast?_append] at hlast
                  simp at hlast
                  exact ⟨pre, by rw [hx, List.concat_eq_append, hlast]⟩
              have := nextLoop_finish_of_last pre last cur
                { stepList := sl, stepNow := some cur, running := true, stepRunning := true,
                  taskList := rest, log := lg ++ [.lock] } rfl (hpre ▸ hnd) hname
              rw [← hpre, hl] at this
              simp at this
      · simp only [tick, Mission.emit, ht]
        simp only [Bool.not_true, Bool.false_eq_true, if_false]
        have hr1 := (jumpLoop_frame t sl
          { stepList := sl, stepNow := sn, running := true, stepRunning := true,
            taskList := rest, log := lg ++ [.lock] }).2.1
        simp only at hr1
        simp [Outcome.state, hr1, ht]

/-- C20. For a step list with pairwise distinct names: `Start` leaves `running`
true, and `GoNext` and `Jump` leave it as it was.  A polling pass on a running
sequencer leaves `running` false exactly when the sequencer is not busy, the
request at the head of the queue is an advance request, and the current step
has the name of the last step of the list (it is the last step, when it is a
step of the list).  So a pass whose head request is a jump request, and a pass
that advances from a step that is not the last, leave `running` true.  On a
sequencer that is not running, `GoNext`, `Jump` and a polling pass leave
`running` false. -/
theorem running_stops_only_after_last_step (m : Mission)
    (hnd : (names m.stepList).Nodup) :
    (Start m).state.running = true ∧
    (GoNext m).state.running = m.running ∧
    (∀ name : String, (Jump name m).state.running = m.running) ∧
    (m.running = true →
      ((tick m).state.running = false ↔
        (m.stepRunning = false ∧ m.taskList.head? = some "next" ∧
          ∃ cur last, m.stepNow = some cur ∧ m.stepList.getLast? = some last ∧
            last.StepName = cur.StepName))) ∧
    (∀ cur, m.running = true → m.stepNow = some cur → cur ∈ m.stepList →
      ((tick m).state.running = false ↔
        (m.stepRunning = false ∧ m.taskList.head? = some "next" ∧
          m.stepList.getLast? = some cur))) ∧
    (m.running = true → m.taskList.head? ≠ some "next" →
      (tick m).state.running = true) ∧
    (∀ cur, m.running = true → m.stepNow = some cur → cur ∈ m.stepList →
      m.stepList.getLast? ≠ some cur → (tick m).state.running = true) ∧
    (m.running = false → (tick m).state.running = false) := by
  have hiff := tick_stops_iff m hnd
  have hlast : ∀ cur, m.running = true → m.stepNow = some cur → cur ∈ m.stepList →
      ((tick m).state.running = false ↔
        (m.stepRunning = false ∧ m.taskList.head? = some "next" ∧
          m.stepList.getLast? = some cur)) := by
    intro cur hrun hcur hmem
    rw [hiff hrun]
    constructor
    · rintro ⟨h1, h2, c, last, hc, hl, hname⟩
      rw [hcur, Option.some.injEq] at hc
      subst hc
      have hlm : last ∈ m.stepList := List.mem_of_mem_getLast? hl
      have : last = cur := List.inj_on_of_nodup_map hnd hlm hmem hname
      exact ⟨h1, h2, this ▸ hl⟩
    · rintro ⟨h1, h2, hl⟩
      exact ⟨h1, h2, cur, cur, hcur, hl, rfl⟩
  refine ⟨?_, rfl, ?_, hiff, hlast, ?_, ?_, ?_⟩
  · simp only [Start, Mission.emit]
    split
    · rename_i h
      simpa [Outcome.state] using h
    · split <;> rfl
  · intro name
    cases hj : hasJumpTask m.taskList with
    | true => simp [Jump, Mission.emit, hj, Outcome.state]
    | false =>
      by_cases hn : name ∈ names m.stepList
      · simp [Jump, Mission.emit, hj, Outcome.state, jumpExists_of_mem _ _ _ hn]
      · simp [Jump, Mission.emit, hj, Outcome.state, jumpExists_of_not_mem _ _ _ hn]
  · intro hrun hhead
    cases hr : (tick m).state.running with
    | true => rfl
    | false => exact absurd ((hiff hrun).mp hr).2.1 hhead
  · intro cur hrun hcur hmem hne
    cases hr : (tick m).state.running with
    | true => rfl
    | false => exact absurd ((hlast cur hrun hcur hmem).mp hr).2.2 hne
  · intro hrun
    simp [tick, Mission.emit, hrun, Outcome.state]

/-- Witness for C20: on three steps, a pass that advances from the first step
leaves `running` true and a pass that advances from the last step leaves it
false. -/
theorem running_stops_only_after_last_step_witness :
    (tick (run [.goNext] (Start (NewMission [step1, step2, step3])).state).state).state.running
      = true ∧
    (tick (run [.goNext, .tick, .goNext, .tick, .goNext]
      (Start (NewMission [step1, step2, step3])).state).state).state.running = false := by
  refine ⟨?_, ?_⟩
  · exact (running_stops_only_after_last_step
      (run [.goNext] (Start (NewMission [step1, step2, step3])).state).state
      (by decide)).2.2.2.2.2.2.1 step1 (by decide) (by decide) (by decide) (by decide)
  · exact ((running_stops_only_after_last_step
      (run [.goNext, .tick, .goNext, .tick, .goNext]
        (Start (NewMission [step1, step2, step3])).state).state
      (by decide)).2.2.2.2.1 step3 (by decide) (by decide) (by decide)).mpr
      ⟨by decide, by decide, by decide⟩

end mission

namespace lbox

/-! ### C18: the barrier opens when the last expected key is supplied -/

theorem lookup_mapSet {α : Type} (k : String) (v : α) (d : List (String × α)) (e : String) :
    (mapSet k v d).lookup e = if e = k then some v else d.lookup e := by
  induction d with
  | nil =>
    by_cases h : e = k
    · simp [mapSet, List.lookup, h]
    · have hb : (e == k) = false := by simpa using h
      simp [mapSet, List.lookup, h, hb]
  | cons p rest ih =>
    obtain ⟨k1, v1⟩ := p
    by_cases hk : k1 = k
    · subst hk
      by_cases h : e = k1
      · simp [mapSet, List.lookup, h]
      · have hb : (e == k1) = false := by simpa using h
        simp [mapSet, List.lookup, h, hb]
    · by_cases h1 : e = k1
      · subst h1
        simp [mapSet, List.lookup, hk]
      · have hb : (e == k1) = false := by simpa using h1
        simp [mapSet, List.lookup, hk, hb, ih]

theorem lookup_inputLoop {α : Type} (k : String) (v : α) (vl : List String)
    (d : List (String × α)) (e : String) :
    (inputLoop k v vl d).lookup e = if e = k ∧ k ∈ vl then some v else d.lookup e := by
  induction vl generalizing d with
  | nil => simp [inputLoop]
  | cons it rest ih =>
    by_cases hit : it = k
    · subst hit
      simp only [inputLoop, if_true, ih, lookup_mapSet, List.mem_cons, true_or, and_true]
      by_cases h : e = it <;> simp [h]
    · have hne : ¬ k = it := fun h => hit h.symm
      simp [inputLoop, hit, hne, ih]

theorem contains_eq_true_iff (keys : List String) (key : String) :
    contains keys key = true ↔ key ∈ keys := by
  induction keys with
  | nil => simp [contains]
  | cons k ks ih =>
    by_cases h : k = key
    · simp [contains, h]
    · have hne : ¬ key = k := fun e => h e.symm
      simp [contains, h, hne, ih]

theorem mem_keys_iff_lookup {α : Type} (d : List (String × α)) (e : String) :
    e ∈ d.map Prod.fst ↔ d.lookup e ≠ none := by
  induction d with
  | nil => simp
  | cons p rest ih =>
    obtain ⟨k1, v1⟩ := p
    by_cases h : e = k1
    · simp [List.lookup, h]
    · have hb : (e == k1) = false := by simpa using h
      simp only [List.map_cons, List.mem_cons, h, false_or, List.lookup, hb]
      exact ih

theorem countReady_eq (readyKeys vl : List String) (ready : Nat) :
    countReady readyKeys vl ready =
      ready + (vl.filter (fun e => contains readyKeys e)).length := by
  induction vl generalizing ready with
  | nil => simp [countReady]
  | cons it rest ih =>
    cases h : contains readyKeys it with
    | true => simp [countReady, h, ih, List.filter]; omega
    | false => simp [countReady, h, ih, List.filter]

theorem countReady_eq_length_iff (readyKeys vl : List String) :
    vl.length = countReady readyKeys vl 0 ↔ ∀ e ∈ vl, e ∈ readyKeys := by
  rw [countReady_eq, Nat.zero_add, eq_comm, List.filter_length_eq_length]
  constructor
  · intro h e he
    exact (contains_eq_true_iff _ _).mp (h e he)
  · intro h e he
    exact (contains_eq_true_iff _ _).mpr (h e he)

theorem Inputs_append {α : Type} (a b : List (String × α)) (mv : ManifoldValve α) :
    Inputs (a ++ b) mv = Inputs b (Inputs a mv) := by
  induction a generalizing mv with
  | nil => rfl
  | cons p rest ih =>
    obtain ⟨k, v⟩ := p
    simp [Inputs, ih]

theorem latest_append_singleton {α : Type} (e k : String) (v : α) (ins : List (String × α)) :
    latest e (ins ++ [(k, v)]) = if k = e then some v else latest e ins := by
  induction ins with
  | nil => by_cases h : k = e <;> simp [latest, h]
  | cons p rest ih =>
    obtain ⟨k1, v1⟩ := p
    have hc : latest e ((k1, v1) :: rest ++ [(k, v)]) =
        match latest e (rest ++ [(k, v)]) with
        | some w => some w
        | none => if k1 = e then some v1 else none := rfl
    rw [hc, ih]
    by_cases h : k = e <;> simp [latest, h]

theorem latest_ne_none_iff {α : Type} (e : String) (ins : List (String × α)) :
    latest e ins ≠ none ↔ e ∈ ins.map Prod.fst := by
  induction ins with
  | nil => simp [latest]
  | cons p rest ih =>
    obtain ⟨k1, v1⟩ := p
    cases hl : latest e rest with
    | some w =>
      have : e ∈ rest.map Prod.fst := ih.mp (by simp [hl])
      simp only [latest, hl, List.map_cons, List.mem_cons]
      exact ⟨fun _ => Or.inr this, fun _ => by simp⟩
    | none =>
      have hn : e ∉ rest.map Prod.fst := fun h => (ih.mpr h) hl
      by_cases hk : k1 = e
      · simp [latest, hl, hk]
      · have hk2 : ¬ e = k1 := fun h => hk h.symm
        simp only [latest, hl, hk, if_false, List.map_cons, List.mem_cons, hk2, false_or]
        exact ⟨fun h => absurd rfl h, fun h => absurd h hn⟩

theorem CheckValve_frame {α : Type} (mv : ManifoldValve α) :
    (CheckValve mv).valveList = mv.valveList ∧ (CheckValve mv).data = mv.data ∧
    (CheckValve mv).opened =
      if ∀ e ∈ mv.valveList, e ∈ mv.data.map Prod.fst then mv.opened ++ [mv.data]
      else mv.opened := by
  unfold CheckValve
  simp only [countReady_eq_length_iff]
  split <;> exact ⟨rfl, rfl, rfl⟩

theorem Input_frame {α : Type} (k : String) (v : α) (mv : ManifoldValve α) :
    (Input k v mv).valveList = mv.valveList ∧
    (Input k v mv).data = inputLoop k v mv.valveList mv.data ∧
    (Input k v mv).opened =
      if ∀ e ∈ mv.valveList, e ∈ (inputLoop k v mv.valveList mv.data).map Prod.fst then
        mv.opened ++ [inputLoop k v mv.valveList mv.data]
      else mv.opened := by
  unfold Input
  exact CheckValve_frame _

theorem Inputs_state {α : Type} (vl : List String) (ins : List (String × α)) :
    (Inputs ins (NewManifoldValve vl)).valveList = vl ∧
    ∀ e, (Inputs ins (NewManifoldValve vl)).data.lookup e =
      if e ∈ vl then latest e ins else none := by
  induction ins using List.reverseRecOn with
  | nil => simp [Inputs, NewManifoldValve, latest]
  | append_singleton ins p ih =>
    obtain ⟨k, v⟩ := p
    obtain ⟨hvl, hdata⟩ := ih
    rw [Inputs_append]
    simp only [Inputs]
    obtain ⟨h1, h2, _⟩ := Input_frame k v (Inputs ins (NewManifoldValve vl))
    refine ⟨h1.trans hvl, ?_⟩
    intro e
    rw [h2, lookup_inputLoop, hvl, hdata, latest_append_singleton]
    by_cases hek : e = k
    · subst hek
      by_cases hmem : e ∈ vl <;> simp [hmem]
    · have hke : ¬ k = e := fun h => hek h.symm
      simp [hek, hke]

theorem inputLoop_of_not_mem {α : Type} (k : String) (v : α) (vl : List String)
    (d : List (String × α)) (h : k ∉ vl) : inputLoop k v vl d = d := by
  induction vl generalizing d with
  | nil => rfl
  | cons it rest ih =>
    simp only [List.mem_cons, not_or] at h
    have hit : ¬ it = k := fun e => h.1 e.symm
    simp [inputLoop, hit, ih d h.2]

theorem Inputs_keys {α : Type} (vl : List String) (ins : List (String × α)) (e : String)
    (he : e ∈ vl) :
    e ∈ (Inputs ins (NewManifoldValve vl)).data.map Prod.fst ↔ e ∈ ins.map Prod.fst := by
  rw [mem_keys_iff_lookup, (Inputs_state vl ins).2 e, if_pos he, latest_ne_none_iff]

theorem Inputs_snoc {α : Type} (vl : List String) (ins : List (String × α))
    (k : String) (v : α) :
    Input k v (Inputs ins (NewManifoldValve vl)) =
      Inputs (ins ++ [(k, v)]) (NewManifoldValve vl) := by
  rw [Inputs_append]
  rfl

theorem Input_opened {α : Type} (vl : List String) (ins : List (String × α))
    (k : String) (v : α) :
    (Input k v (Inputs ins (NewManifoldValve vl))).opened =
      if ∀ e ∈ vl, e ∈ (ins ++ [(k, v)]).map Prod.fst then
        (Inputs ins (NewManifoldValve vl)).opened ++
          [(Input k v (Inputs ins (NewManifoldValve vl))).data]
      else (Inputs ins (NewManifoldValve vl)).opened := by
  obtain ⟨_, h2, h3⟩ := Input_frame k v (Inputs ins (NewManifoldValve vl))
  rw [h3, ← h2, (Inputs_state vl ins).1]
  have hiff : (∀ e ∈ vl, e ∈ (Input k v (Inputs ins (NewManifoldValve vl))).data.map Prod.fst) ↔
      ∀ e ∈ vl, e ∈ (ins ++ [(k, v)]).map Prod.fst := by
    rw [Inputs_snoc]
    exact ⟨fun h e he => (Inputs_keys vl _ e he).mp (h e he),
      fun h e he => (Inputs_keys vl _ e he).mpr (h e he)⟩
  by_cases hall : ∀ e ∈ vl, e ∈ (ins ++ [(k, v)]).map Prod.fst
  · rw [if_pos hall, if_pos (hiff.mpr hall)]
  · rw [if_neg hall, if_neg (fun h => hall (hiff.mp h))]

theorem Inputs_opened_nil {α : Type} (vl : List String) (ins : List (String × α))
    (h : ∃ e ∈ vl, e ∉ ins.map Prod.fst) :
    (Inputs ins (NewManifoldValve vl)).opened = [] := by
  induction ins using List.reverseRecOn with
  | nil => rfl
  | append_singleton ins p ih =>
    obtain ⟨k, v⟩ := p
    obtain ⟨e, he, hmiss⟩ := h
    have hmiss0 : e ∉ ins.map Prod.fst := fun hm => hmiss (by simp at hm ⊢; exact Or.inl hm)
    rw [← Inputs_snoc, Input_opened, if_neg (fun hall => hmiss (hall e he))]
    exact ih ⟨e, he, hmiss0⟩

/-- C18. On a valve made by `NewManifoldValve` for any list of expected keys,
after any sequence of `Input` calls, a further call `Input(key, value)`:
records nothing when `key` is not an expected key; does not invoke
`OnValveOpen` while some expected key has been supplied neither before nor by
this call, and no call before it has invoked it either; and, when this call
supplies the last expected key that was missing, invokes `OnValveOpen` exactly
once, the first invocation on this valve, with a map that holds for every
expected key the value most recently supplied for it and holds no other
key. -/
theorem Input_opens_on_last_missing_key {α : Type} (valveList : List String)
    (ins : List (String × α)) (key : String) (value : α) :
    (key ∉ valveList →
      (Input key value (Inputs ins (NewManifoldValve valveList))).data
        = (Inputs ins (NewManifoldValve valveList)).data) ∧
    ((∃ e ∈ valveList, e ∉ (ins ++ [(key, value)]).map Prod.fst) →
      (Inputs ins (NewManifoldValve valveList)).opened = [] ∧
      (Input key value (Inputs ins (NewManifoldValve valveList))).opened = []) ∧
    ((∃ e ∈ valveList, e ∉ ins.map Prod.fst) →
      (∀ e ∈ valveList, e ∈ (ins ++ [(key, value)]).map Prod.fst) →
      ∃ d, (Input key value (Inputs ins (NewManifoldValve valveList))).opened = [d] ∧
        ∀ e, d.lookup e =
          if e ∈ valveList then latest e (ins ++ [(key, value)]) else none) := by
  refine ⟨?_, ?_, ?_⟩
  · intro hk
    rw [(Input_frame _ _ _).2.1, (Inputs_state valveList ins).1,
      inputLoop_of_not_mem _ _ _ _ hk]
  · intro hmiss
    have h1 := Inputs_opened_nil valveList (ins ++ [(key, value)]) hmiss
    rw [← Inputs_snoc] at h1
    obtain ⟨e, he, hm⟩ := hmiss
    exact ⟨Inputs_opened_nil valveList ins
      ⟨e, he, fun h => hm (by simp at h ⊢; exact Or.inl h)⟩, h1⟩
  · intro hmiss hall
    refine ⟨(Input key value (Inputs ins (NewManifoldValve valveList))).data, ?_, ?_⟩
    · rw [Input_opened, if_pos hall, Inputs_opened_nil valveList ins hmiss]
      rfl
    · intro e
      rw [Inputs_snoc]
      exact (Inputs_state valveList _).2 e

/-- Witness for C18: two expected keys, an input with an unexpected key, and the
first expected key supplied twice before the second. -/
theorem Input_opens_on_last_missing_key_witness :
    (Input "b" 2 (Inputs [("a", 1), ("x", 5), ("a", 3)] (NewManifoldValve ["a", "b"]))).opened
      = [[("a", 3), ("b", 2)]] ∧
    ∃ d, (Input "b" 2
        (Inputs [("a", 1), ("x", 5), ("a", 3)] (NewManifoldValve ["a", "b"]))).opened = [d] ∧
      ∀ e, d.lookup e =
        if e ∈ ["a", "b"] then latest e ([("a", 1), ("x", 5), ("a", 3)] ++ [("b", 2)])
        else none :=
  ⟨by decide, (Input_opens_on_last_missing_key ["a", "b"] [("a", 1), ("x", 5), ("a", 3)]
    "b" (2 : Nat)).2.2 (by decide) (by decide)⟩

end lbox

namespace statemachine

/-! ### C21: the previous-state field after a call -/

theorem Start_keeps_stateLast (firstState : String) (sm : StateMachine) :
    (Start firstState sm).machine.stateLast = sm.stateLast := by
  unfold Start
  split
  · rfl
  · split
    · rfl
    · simp only [StateMachine.emit]
      split
      · rfl
      · split
        · rfl
        · split <;> rfl

/-- The part of C21 that the code satisfies, for `ChangeState`: when the
previous-state field is empty before the call, it is empty after every return
other than the one that reports a failed `StateIn`. -/
theorem ChangeState_keeps_stateLast_empty (stateName : String) (sm sm1 : StateMachine)
    (err : Option Error) (h : ChangeState stateName sm = .returned sm1 err)
    (hne : ∀ c, err ≠ some (.stateInFailed c)) (hlast : sm.stateLast = none) :
    sm1.stateLast = none := by
  cases err with
  | some e =>
    rw [(ChangeState_error_keeps_state stateName sm sm1 e h
      (fun c hc => hne c (by rw [hc]))).2.2.2]
    exact hlast
  | none =>
    unfold ChangeState at h
    split at h
    · simp at h
    · split at h
      · simp at h
      · unfold doChangeState at h
        split at h
        · simp at h
        · simp only [StateMachine.emit] at h
          split at h
          · simp at h
          · split at h
            · simp at h
            · split at h
              · simp at h
              · split at h
                · simp at h
                · split at h
                  · simp at h
                  · simp only [Outcome.returned.injEq, and_true] at h
                    rw [← h]

/-- C21 (the code on this point). For a running machine in state `now` with
an empty previous-state field, a target present in the map, the guard
permitting and `StateOut` of `now` succeeding: if `StateIn` of the target
returns an error, `ChangeState` returns that error and the previous-state
field holds `now` after the return, not nil. -/
theorem ChangeState_failed_StateIn_leaves_stateLast (sm : StateMachine)
    (target : String) (now entered : State) (e : String)
    (hrun : sm.running = true) (hnow : sm.stateNow = some now)
    (hmap : sm.stateMap.States.lookup target = some (some entered))
    (hguard : sm.smi.CheckStateChange sm.log now (some entered) = (true, none))
    (hout : now.StateOut
      (sm.log ++ [.checkStateChange now.GetName (some entered.GetName)]) = none)
    (hin : entered.StateIn
      (sm.log ++ [.checkStateChange now.GetName (some entered.GetName),
                  .stateOut now.GetName]) = some e) :
    ∃ sm1, ChangeState target sm = .returned sm1 (some (.stateInFailed e)) ∧
      sm1.stateLast = some now ∧ sm1.stateLast ≠ none ∧
      GetCurrentState sm1 = some entered ∧ IsRunning sm1 = true := by
  refine ⟨{ sm with stateLast := some now, stateNow := some entered,
                    log := sm.log ++ [.checkStateChange now.GetName (some entered.GetName),
                                      .stateOut now.GetName, .stateIn entered.GetName] },
    ?_, rfl, by simp, rfl, hrun⟩
  simp [ChangeState, doChangeState, StateMachine.emit, hrun, hnow, hmap, hguard, hout, hin]

/-- Witness for C21: the `StateIn failed` case of `TestStateMachine_ChangeState`,
on a machine whose previous-state field is empty before the call. -/
theorem ChangeState_failed_StateIn_leaves_stateLast_witness :
    (Start "state1"
      (NewStateMachine (MockStateMachine none none true) enterFailsMap)).machine.stateLast
      = none ∧
    ∃ sm1, ChangeState "state2" (Start "state1"
        (NewStateMachine (MockStateMachine none none true) enterFailsMap)).machine
        = .returned sm1 (some (.stateInFailed "state in failed")) ∧
      sm1.stateLast = some (MockState "state1" none none) ∧ sm1.stateLast ≠ none := by
  obtain ⟨sm1, h, hl, hne, _⟩ := ChangeState_failed_StateIn_leaves_stateLast
    (Start "state1" (NewStateMachine (MockStateMachine none none true) enterFailsMap)).machine
    "state2" (MockState "state1" none none)
    (MockState "state2" (some "state in failed") none) "state in failed"
    rfl rfl rfl rfl rfl rfl
  exact ⟨rfl, sm1, h, hl, hne⟩

/-! ### C22: a running machine has a current state -/

theorem Start_invariant (firstState : String) (sm : StateMachine)
    (hmap : NoNilValues sm.stateMap) (hinv : CurrentWhenRunning sm) :
    CurrentWhenRunning (Start firstState sm).machine ∧
    (Start firstState sm).machine.stateMap = sm.stateMap ∧
    (Start firstState sm).isPanic = false := by
  obtain ⟨smi, map, initing, running, now, last, log⟩ := sm
  simp only [NoNilValues] at hmap
  cases hstart : initing || running with
  | true => simpa [Start, hstart, Outcome.machine, Outcome.isPanic] using hinv
  | false =>
    have hrun : running = false := by
      cases running
      · rfl
      · simp at hstart
    subst hrun
    cases hl : map.States.lookup firstState with
    | none => simpa [Start, hstart, hl, Outcome.machine, Outcome.isPanic] using hinv
    | some v =>
      cases hi : smi.InitData log with
      | some e =>
        simp [Start, hstart, hl, hi, StateMachine.emit, Outcome.machine, Outcome.isPanic,
          CurrentWhenRunning]
      | none =>
        cases v with
        | none => exact absurd rfl (hmap firstState none hl)
        | some s =>
          cases hin : s.StateIn (log ++ [.initData]) with
          | some e =>
            simp [Start, hstart, hl, hi, hin, StateMachine.emit, Outcome.machine,
              Outcome.isPanic, CurrentWhenRunning]
          | none =>
            simp only [Start, hstart, hl, hi, hin, StateMachine.emit, Outcome.machine,
              Outcome.isPanic, CurrentWhenRunning, Bool.false_eq_true, if_false, and_true]
            exact fun _ => ⟨s, firstState, rfl, hl⟩

theorem ChangeState_invariant (stateName : String) (sm : StateMachine)
    (hmap : NoNilValues sm.stateMap) (hinv : CurrentWhenRunning sm) :
    CurrentWhenRunning (ChangeState stateName sm).machine ∧
    (ChangeState stateName sm).machine.stateMap = sm.stateMap ∧
    (ChangeState stateName sm).isPanic = false := by
  obtain ⟨smi, map, initing, running, now, last, log⟩ := sm
  simp only [NoNilValues] at hmap
  cases running with
  | false => simpa [ChangeState, Outcome.machine, Outcome.isPanic] using hinv
  | true =>
    obtain ⟨cur, k, hcur, hk⟩ := hinv rfl
    simp only at hcur hk
    subst hcur
    cases hl : map.States.lookup stateName with
    | none =>
      have h : ChangeState stateName
          { smi := smi, stateMap := map, initing := initing, running := true,
            stateNow := some cur, stateLast := last, log := log } =
          .returned
            { smi := smi, stateMap := map, initing := initing, running := true,
              stateNow := some cur, stateLast := last, log := log }
            (some (.stateNotFound stateName)) := by
        simp [ChangeState, hl]
      rw [h]
      exact ⟨fun _ => ⟨cur, k, rfl, hk⟩, rfl, rfl⟩
    | some v =>
      cases v with
      | none => exact absurd rfl (hmap stateName none hl)
      | some entered =>
        cases hr : smi.CheckStateChange log cur (some entered) with
        | mk allowed err =>
          cases err with
          | some e =>
            have h : ChangeState stateName
                { smi := smi, stateMap := map, initing := initing, running := true,
                  stateNow := some cur, stateLast := last, log := log } =
                .returned
                  { smi := smi, stateMap := map, initing := initing, running := true,
                    stateNow := some cur, stateLast := last,
                    log := log ++ [.checkStateChange cur.GetName (some entered.GetName)] }
                  (some (.checkFailed e)) := by
              simp [ChangeState, doChangeState, StateMachine.emit, hl, hr]
            rw [h]
            exact ⟨fun _ => ⟨cur, k, rfl, hk⟩, rfl, rfl⟩
          | none =>
            cases allowed with
            | false =>
              have h : ChangeState stateName
                  { smi := smi, stateMap := map, initing := initing, running := true,
                    stateNow := some cur, stateLast := last, log := log } =
                  .returned
                    { smi := smi, stateMap := map, initing := initing, running := true,
                      stateNow := some cur, stateLast := last,
                      log := log ++ [.checkStateChange cur.GetName (some entered.GetName)] }
                    (some (.notAllowed cur.GetName stateName)) := by
                simp [ChangeState, doChangeState, StateMachine.emit, hl, hr]
              rw [h]
              exact ⟨fun _ => ⟨cur, k, rfl, hk⟩, rfl, rfl⟩
            | true =>
              cases ho : cur.StateOut
                  (log ++ [.checkStateChange cur.GetName (some entered.GetName)]) with
              | some e =>
                have h : ChangeState stateName
                    { smi := smi, stateMap := map, initing := initing, running := true,
                      stateNow := some cur, stateLast := last, log := log } =
                    .returned
                      { smi := smi, stateMap := map, initing := initing, running := true,
                        stateNow := some cur, stateLast := last,
                        log := log ++ [.checkStateChange cur.GetName (some entered.GetName),
                                       .stateOut cur.GetName] }
                      (some (.stateOutFailed e)) := by
                  simp [ChangeState, doChangeState, StateMachine.emit, hl, hr, ho]
                rw [h]
                exact ⟨fun _ => ⟨cur, k, rfl, hk⟩, rfl, rfl⟩
              | none =>
                cases hin : entered.StateIn
                    (log ++ [.checkStateChange cur.GetName (some entered.GetName),
                             .stateOut cur.GetName]) with
                | some e =>
                  have h : ChangeState stateName
                      { smi := smi, stateMap := map, initing := initing, running := true,
                        stateNow := some cur, stateLast := last, log := log } =
                      .returned
                        { smi := smi, stateMap := map, initing := initing, running := true,
                          stateNow := some entered, stateLast := some cur,
                          log := log ++ [.checkStateChange cur.GetName (some entered.GetName),
                                         .stateOut cur.GetName, .stateIn entered.GetName] }
                        (some (.stateInFailed e)) := by
                    simp [ChangeState, doChangeState, StateMachine.emit, hl, hr, ho, hin]
                  rw [h]
                  exact ⟨fun _ => ⟨entered, stateName, rfl, hl⟩, rfl, rfl⟩
                | none =>
                  have h : ChangeState stateName
                      { smi := smi, stateMap := map, initing := initing, running := true,
                        stateNow := some cur, stateLast := last, log := log } =
                      .returned
                        { smi := smi, stateMap := map, initing := initing, running := true,
                          stateNow := some entered, stateLast := none,
                          log := log ++ [.checkStateChange cur.GetName (some entered.GetName),
                                         .stateOut cur.GetName, .stateIn entered.GetName] }
                        none := by
                    simp [ChangeState, doChangeState, StateMachine.emit, hl, hr, ho, hin]
                  rw [h]
                  exact ⟨fun _ => ⟨entered, stateName, rfl, hl⟩, rfl, rfl⟩

theorem Start_keeps_running_true (firstState : String) (sm : StateMachine)
    (h : sm.running = true) : (Start firstState sm).machine.running = true := by
  simp [Start, h, Outcome.machine]

theorem ChangeState_keeps_running (stateName : String) (sm : StateMachine) :
    (ChangeState stateName sm).machine.running = sm.running := by
  unfold ChangeState
  split
  · rfl
  · split
    · rfl
    · unfold doChangeState
      split
      · rfl
      · simp only [StateMachine.emit]
        split
        · rfl
        · split
          · rfl
          · split
            · rfl
            · split
              · rfl
              · split <;> rfl

theorem call_invariant (c : Call) (sm : StateMachine)
    (hmap : NoNilValues sm.stateMap) (hinv : CurrentWhenRunning sm) :
    CurrentWhenRunning (call c sm).machine ∧ NoNilValues (call c sm).machine.stateMap ∧
    (sm.running = true → (call c sm).machine.running = true) := by
  cases c with
  | start n =>
    obtain ⟨h1, h2, _⟩ := Start_invariant n sm hmap hinv
    exact ⟨h1, by rw [call, h2]; exact hmap, Start_keeps_running_true n sm⟩
  | changeState n =>
    obtain ⟨h1, h2, _⟩ := ChangeState_invariant n sm hmap hinv
    exact ⟨h1, by rw [call, h2]; exact hmap,
      fun h => (ChangeState_keeps_running n sm).trans h⟩

theorem runCalls_invariant (cs : List Call) :
    ∀ sm : StateMachine, NoNilValues sm.stateMap → CurrentWhenRunning sm →
      CurrentWhenRunning (runCalls cs sm) ∧
      (sm.running = true → (runCalls cs sm).running = true) := by
  induction cs with
  | nil => exact fun sm _ hinv => ⟨hinv, fun h => h⟩
  | cons c cs ih =>
    intro sm hmap hinv
    obtain ⟨h1, h2, h3⟩ := call_invariant c sm hmap hinv
    obtain ⟨h4, h5⟩ := ih (call c sm).machine h2 h1
    exact ⟨h4, fun h => h5 (h3 h)⟩

/-- C22. For a state map with no nil values, "when `running` is true the
current state is not nil and is a value of the state map" holds on the machine
made by `NewStateMachine` and on the machine left by any sequence of `Start`
and `ChangeState` calls, whatever they return, for every guard and every
behaviour of the states; none of these calls panics; each single call
preserves the property; and a call on a machine with `running` true leaves
`running` true. -/
theorem running_machine_has_current_state (smi : StateMachineInterface)
    (stateMap : StateMap) (hmap : NoNilValues stateMap) :
    CurrentWhenRunning (NewStateMachine smi stateMap) ∧
    (∀ calls : List Call, CurrentWhenRunning (runCalls calls (NewStateMachine smi stateMap))) ∧
    (∀ (sm : StateMachine) (name : String), sm.stateMap = stateMap →
      CurrentWhenRunning sm →
      CurrentWhenRunning (Start name sm).machine ∧ (Start name sm).isPanic = false ∧
      CurrentWhenRunning (ChangeState name sm).machine ∧
      (ChangeState name sm).isPanic = false) ∧
    (∀ (sm : StateMachine) (name : String), sm.running = true →
      (Start name sm).machine.running = true ∧
      (ChangeState name sm).machine.running = true) ∧
    (∀ (sm : StateMachine) (calls : List Call), sm.stateMap = stateMap →
      CurrentWhenRunning sm → sm.running = true → (runCalls calls sm).running = true) := by
  have hnew : CurrentWhenRunning (NewStateMachine smi stateMap) := by
    intro h
    simp [NewStateMachine] at h
  refine ⟨hnew, ?_, ?_, ?_, ?_⟩
  · intro calls
    exact (runCalls_invariant calls (NewStateMachine smi stateMap) hmap hnew).1
  · intro sm name hsm hinv
    obtain ⟨h1, _, h2⟩ := Start_invariant name sm (hsm ▸ hmap) hinv
    obtain ⟨h3, _, h4⟩ := ChangeState_invariant name sm (hsm ▸ hmap) hinv
    exact ⟨h1, h2, h3, h4⟩
  · intro sm name h
    exact ⟨Start_keeps_running_true name sm h, (ChangeState_keeps_running name sm).trans h⟩
  · intro sm calls hsm hinv h
    exact (runCalls_invariant calls sm (hsm ▸ hmap) hinv).2 h

/-- Witness for C22: a failed entry, a second start, and a change of state. -/
theorem running_machine_has_current_state_witness :
    NoNilValues enterFailsMap ∧
    CurrentWhenRunning (runCalls [.start "state2", .start "state1", .changeState "state2"]
      (NewStateMachine (MockStateMachine none none true) enterFailsMap)) ∧
    (runCalls [.start "state2", .start "state1", .changeState "state2"]
      (NewStateMachine (MockStateMachine none none true) enterFailsMap)).running = true := by
  have hmap : NoNilValues enterFailsMap := by
    intro k v hkv
    simp only [enterFailsMap, List.lookup] at hkv
    split at hkv
    · rw [← Option.some.inj hkv]; simp
    · split at hkv
      · rw [← Option.some.inj hkv]; simp
      · simp at hkv
  exact ⟨hmap, (running_machine_has_current_state (MockStateMachine none none true)
    enterFailsMap hmap).2.1 _, rfl⟩

end statemachine

namespace lbox

/-! ### C23: `Start` twice on the sequencer of `pkg/Mission.go` -/

theorem goNextLoop_running (l : List StepDisposer) (b : Bool) (m m1 : Mission)
    (n r : Bool) (h : goNextLoop l b m = some (m1, n, r)) : m1.running = m.running := by
  induction l generalizing b with
  | nil =>
    simp only [goNextLoop, Option.some.injEq, Prod.mk.injEq] at h
    rw [← h.1]
  | cons it rest ih =>
    cases b with
    | true =>
      simp only [goNextLoop, if_true, Option.some.injEq, Prod.mk.injEq] at h
      rw [← h.1]
    | false =>
      cases hn : m.stepNow with
      | none => simp [goNextLoop, hn] at h
      | some now =>
        simp only [goNextLoop, hn, Bool.false_eq_true, if_false] at h
        by_cases he : it.StepName = now.StepName
        · rw [if_pos he] at h
          exact ih true h
        · rw [if_neg he] at h
          exact ih false h

theorem jump_fold_running (stepName : String) (l : List StepDisposer) (m : Mission) :
    (l.foldl
      (fun m iterator =>
        if iterator.StepName = stepName then
          { m with stepNow := some iterator, disposed := m.disposed ++ [iterator] }
        else m) m).running = m.running := by
  induction l generalizing m with
  | nil => rfl
  | cons it rest ih =>
    simp only [List.foldl_cons]
    rw [ih]
    split <;> rfl

/-- C23 (the code on this point). For every non-empty step list, `Start()` on
a new mission invokes `Dispose` on step 0 and returns with `running` still
false, and a second `Start()` invokes `Dispose` on step 0 again: after the two
calls step 0 has been dispatched twice.  No method of `pkg/Mission.go` sets
`running` to true: on a mission with `running` false, `Start`, `GoNext` and
`Jump` all leave it false. -/
theorem legacy_Start_twice_dispatches_twice (s : StepDisposer) (rest : List StepDisposer) :
    (∃ m1 m2, Start (NewMission (s :: rest)) = .done m1 ∧ m1.running = false ∧
      m1.disposed = [s] ∧ Start m1 = .done m2 ∧ m2.disposed = [s, s] ∧
      m2.stepNow = some s ∧ m2.running = false) ∧
    (∀ m : Mission, m.running = false →
      (Start m).state.running = false ∧ (GoNext m).state.running = false ∧
      ∀ name : String, (Jump name m).state.running = false) ∧
    ((Start (NewMission [stepA, stepB])).bind Start).state.disposed = [stepA, stepA] := by
  refine ⟨⟨_, _, rfl, rfl, rfl, rfl, rfl, rfl, rfl⟩, ?_, by decide⟩
  intro m hrun
  refine ⟨?_, ?_, ?_⟩
  · simp only [Start, hrun, Bool.false_eq_true, if_false]
    split
    · exact hrun
    · rfl
  · unfold GoNext
    cases hl : goNextLoop m.stepList false m with
    | none => exact hrun
    | some p =>
      obtain ⟨m1, n, r⟩ := p
      have h1 := (goNextLoop_running _ _ _ _ _ _ hl).trans hrun
      simp only
      split
      · exact h1
      · split
        · rfl
        · exact h1
  · intro name
    exact (jump_fold_running name m.stepList m).trans hrun

end lbox
